import Mathlib

/-!
# Verification of the `VirtualMemorySystem` core (os.py)

A shallow embedding of the demand-paged virtual memory manager implemented by
the class `VirtualMemorySystem` in `os.py`, together with proofs about its
state-machine behaviour.

Modelling conventions:
* Python `int` becomes `Int`; non-negative counters and frame indices become `Nat`.
* The frame array `self.frames` becomes a function `Nat → Frame` together with
  the length field `physical_frames`; `Frame.frame_number` is the index, so the
  explicit `frame_number` field is dropped (it always equals the list position).
* The FIFO queue stores frame objects in Python; because the objects are
  aliases of the entries of `self.frames`, the queue is embedded as a list of
  frame indices and every attribute read through a queued object is a read of
  the current frame table at that index (this preserves Python's aliasing
  semantics, including reads that happen after mutation).
* Python dictionaries (`self.processes`, `Process.page_table`) become
  functions into `Option`.  A `dict` lookup that can fail with `KeyError`
  (the page-table lookup at a possibly-absent key) is embedded as the checked
  lookup `ptLookup`, whose domain is exactly `range(pages)`, the key set the
  dictionary actually has.  Writes in the source only ever occur at keys
  already present, so a plain function override is faithful.
* Uncaught Python exceptions (`KeyError`, `IndexError`, `ZeroDivisionError`)
  are embedded as `Except PyErr`; the state component returned alongside an
  error carries exactly the mutations performed before the raise.
* The `while True` loop of `_clock_replacement` is embedded as a fuelled
  recursion with fuel `2 * physical_frames + 1`; fuel exhaustion (modelled as
  the error `nonTermination`) is proved unreachable whenever an occupied frame
  exists, which is the only situation in which the source calls the loop.
* GUI-only data (`Process.color`) is omitted; the payload tag `Page.data` is
  kept as the same formatted string the source builds.
-/

/-- The Python exceptions the core can raise, plus a marker for a
non-terminating `while True` loop. -/
inductive PyErr where
  | keyError
  | indexError
  | zeroDivision
  | nonTermination
deriving DecidableEq

instance {ε α : Type} [DecidableEq ε] [DecidableEq α] : DecidableEq (Except ε α) :=
  fun x y =>
    match x, y with
    | .ok a, .ok b =>
        if h : a = b then .isTrue (by rw [h]) else .isFalse (fun hh => by cases hh; exact h rfl)
    | .error a, .error b =>
        if h : a = b then .isTrue (by rw [h]) else .isFalse (fun hh => by cases hh; exact h rfl)
    | .ok _, .error _ => .isFalse (fun hh => by cases hh)
    | .error _, .ok _ => .isFalse (fun hh => by cases hh)

/-- `Page` dataclass: page number, owning process id, payload tag. -/
structure Page where
  page_number : Int
  process_id : Int
  data : String
deriving DecidableEq

/-- `Frame` dataclass minus the `frame_number` field (which is the index of
the frame in the frame table and never changes). -/
structure Frame where
  page : Option Page
  load_time : Nat
  last_access_time : Nat
  reference_bit : Bool
  dirty_bit : Bool
deriving DecidableEq

/-- The state a frame has directly after `Frame(i)` and after the reset in
`terminate_process`. -/
def initFrame : Frame :=
  { page := none, load_time := 0, last_access_time := 0,
    reference_bit := false, dirty_bit := false }

/-- `Process`: id, declared page count, page table.  The page table function
is only meaningful on the dictionary's key set `[0, pages)`; reads go through
the checked lookup `ptLookup`.  The GUI-only random `color` is omitted. -/
structure Process where
  process_id : Int
  pages : Int
  page_table : Int → Option Nat

/-- One row of `self.algorithm_stats`. -/
structure Stats where
  page_faults : Nat
  memory_accesses : Nat
  hit_count : Nat
deriving DecidableEq

def initStats : Stats := { page_faults := 0, memory_accesses := 0, hit_count := 0 }

/-- The full mutable state of a `VirtualMemorySystem` instance. -/
structure VMState where
  physical_frames : Nat
  page_size : Int
  frames : Nat → Frame
  processes : Int → Option Process
  free_frames : List Nat
  current_time : Nat
  fifoStats : Stats
  lruStats : Stats
  clockStats : Stats
  page_faults : Nat
  memory_accesses : Nat
  hit_count : Nat
  clock_hand : Nat
  fifo_queue : List Nat
  free_list : List Nat
  allocation_bitmap : Nat → Bool

/-- `VirtualMemorySystem.__init__`. -/
def mkSystem (physical_frames : Nat) (page_size : Int) : VMState :=
  { physical_frames := physical_frames
    page_size := page_size
    frames := fun _ => initFrame
    processes := fun _ => none
    free_frames := List.range physical_frames
    current_time := 0
    fifoStats := initStats
    lruStats := initStats
    clockStats := initStats
    page_faults := 0
    memory_accesses := 0
    hit_count := 0
    clock_hand := 0
    fifo_queue := []
    free_list := List.range physical_frames
    allocation_bitmap := fun _ => false }

/-- Point update of the frame table. -/
def VMState.setFrame (s : VMState) (i : Nat) (f : Frame) : VMState :=
  { s with frames := fun j => if j = i then f else s.frames j }

/-- Point update of the process dictionary. -/
def VMState.setProcess (s : VMState) (pid : Int) (pr : Option Process) : VMState :=
  { s with processes := fun q => if q = pid then pr else s.processes q }

/-- Checked page-table read: `process.page_table[k]`.  The dictionary built by
`Process.__init__` has exactly the keys `range(pages)`, so a read outside that
range raises `KeyError`. -/
def ptLookup (pr : Process) (k : Int) : Except PyErr (Option Nat) :=
  if 0 ≤ k ∧ k < pr.pages then .ok (pr.page_table k) else .error .keyError

/-- `process.page_table[k] = v`, applied to the process stored under `pid`.
The source only assigns at keys already present in the dictionary, and reads
are domain-checked, so a plain function override is faithful.  Mirrors the
`self.processes.get(...)`/`if old_process:` guard: a missing process id makes
the write a silent no-op. -/
def setPTEntry (s : VMState) (pid : Int) (k : Int) (v : Option Nat) : VMState :=
  match s.processes pid with
  | none => s
  | some pr =>
      s.setProcess pid
        (some { pr with page_table := fun j => if j = k then v else pr.page_table j })

/-- `create_process`. -/
def create_process (s : VMState) (process_id : Int) (num_pages : Int) :
    VMState × Bool :=
  match s.processes process_id with
  | some _ => (s, false)
  | none =>
      (s.setProcess process_id
        (some { process_id := process_id, pages := num_pages,
                page_table := fun _ => none }), true)

/-- `frame.page and frame.page.process_id == process_id`: the loop test of
`terminate_process` on frame `i` of state `s`. -/
def ownedBy (s : VMState) (process_id : Int) (i : Nat) : Bool :=
  match (s.frames i).page with
  | some p => p.process_id == process_id
  | none => false

/-- One iteration body of the freeing loop of `terminate_process` (the branch
where the frame belongs to the dying process). -/
def freeOneFrame (s : VMState) (i : Nat) : VMState :=
  { s with
      free_frames := s.free_frames ++ [i]
      free_list := s.free_list ++ [i]
      allocation_bitmap := fun j => if j = i then false else s.allocation_bitmap j
      frames := fun j => if j = i then initFrame else s.frames j }

/-- The freeing loop of `terminate_process`: `for frame in self.frames: ...`. -/
def termFold (process_id : Int) (l : List Nat) (s : VMState) : VMState :=
  l.foldl (fun acc i => if ownedBy acc process_id i then freeOneFrame acc i else acc) s

/-- The ascending sort applied by Python's `list.sort()` (insertion sort is
extensionally the same function on `List Nat`). -/
def pySort (l : List Nat) : List Nat := List.insertionSort (· ≤ ·) l

/-- `terminate_process`.  Note that the FIFO-queue filter runs after the
freeing loop and reads the already-mutated frames (the queued frame objects
alias `self.frames`), so a frame freed by this very call satisfies
`f.page is None` and is kept. -/
def terminate_process (s : VMState) (process_id : Int) : VMState × Bool :=
  match s.processes process_id with
  | none => (s, false)
  | some _ =>
      let s1 := termFold process_id (List.range s.physical_frames) s
      let s2 := { s1 with
        free_frames := pySort s1.free_frames
        free_list := pySort s1.free_list }
      let s3 := { s2 with
        fifo_queue := s2.fifo_queue.filter (fun f =>
          match (s2.frames f).page with
          | none => true
          | some p => p.process_id != process_id) }
      (s3.setProcess process_id none, true)

/-- The structured messages built by the core's f-strings, one constructor per
return site, carrying the data interpolated into the text. -/
inductive Msg where
  | processNotExist (pid : Int)
  | outOfBounds (va : Int) (pid : Int)
  | pageHit (va : Int) (frame : Nat)
  | faultLoadedFree (pn : Int) (pid : Int) (frame : Nat)
  | faultReplaced (frame : Nat) (pn : Int) (pid : Int)
  | outOfBoundsT (va : Int)
  | pageNotResident (pn : Int)
  | translated (va : Int) (pa : Int) (frame : Nat) (off : Int)
deriving DecidableEq

/-- `algorithm in self.algorithm_stats`. -/
def recognizedAlg (alg : String) : Bool :=
  alg = "FIFO" || alg = "LRU" || alg = "Clock"

/-- Apply `f` to the stats row of `alg`, a no-op for an unrecognized name
(mirrors `if algorithm in self.algorithm_stats: ...`). -/
def bumpAlgStat (s : VMState) (alg : String) (f : Stats → Stats) : VMState :=
  if alg = "FIFO" then { s with fifoStats := f s.fifoStats }
  else if alg = "LRU" then { s with lruStats := f s.lruStats }
  else if alg = "Clock" then { s with clockStats := f s.clockStats }
  else s

/-- Read accessor for `self.algorithm_stats[alg]["memory_accesses"]`. -/
def algAccesses (s : VMState) (alg : String) : Nat :=
  if alg = "FIFO" then s.fifoStats.memory_accesses
  else if alg = "LRU" then s.lruStats.memory_accesses
  else if alg = "Clock" then s.clockStats.memory_accesses
  else 0

/-- Read accessor for `self.algorithm_stats[alg]["hit_count"]`. -/
def algHits (s : VMState) (alg : String) : Nat :=
  if alg = "FIFO" then s.fifoStats.hit_count
  else if alg = "LRU" then s.lruStats.hit_count
  else if alg = "Clock" then s.clockStats.hit_count
  else 0

/-- Read accessor for `self.algorithm_stats[alg]["page_faults"]`. -/
def algFaults (s : VMState) (alg : String) : Nat :=
  if alg = "FIFO" then s.fifoStats.page_faults
  else if alg = "LRU" then s.lruStats.page_faults
  else if alg = "Clock" then s.clockStats.page_faults
  else 0

/-- `[f for f in self.frames if f.page is not None]`, as indices (the frame
list is scanned in index order). -/
def occupiedIndices (s : VMState) : List Nat :=
  (List.range s.physical_frames).filter (fun i => ((s.frames i).page).isSome)

/-- `_fifo_replacement`: pop the front of the queue, re-append it, return its
frame number. -/
def fifoReplacement (s : VMState) : VMState × Nat :=
  match s.fifo_queue with
  | [] => (s, 0)
  | f :: rest => ({ s with fifo_queue := rest ++ [f] }, f)

/-- `_lru_replacement`: Python's `min(occupied_frames, key=...)`, which keeps
the first element attaining the minimum. -/
def lruReplacement (s : VMState) : Nat :=
  match occupiedIndices s with
  | [] => 0
  | i :: rest =>
      rest.foldl
        (fun best j =>
          if (s.frames j).last_access_time < (s.frames best).last_access_time then j
          else best) i

/-- The body of `_clock_replacement`'s `while True` loop, fuelled.  Returns
`(frames, new hand, victim)`. -/
def clockAux (n : Nat) (frames : Nat → Frame) (hand : Nat) :
    Nat → Option ((Nat → Frame) × Nat × Nat)
  | 0 => none
  | fuel + 1 =>
      let fr := frames hand
      match fr.page with
      | none => clockAux n frames ((hand + 1) % n) fuel
      | some _ =>
          if fr.reference_bit then
            clockAux n
              (fun j => if j = hand then { fr with reference_bit := false } else frames j)
              ((hand + 1) % n) fuel
          else
            some (frames, (hand + 1) % n, hand)

/-- `_clock_replacement`.  The fuel `2 * n + 1` is proved sufficient whenever
an occupied frame exists (`clockAux_total`), which is the only situation in
which `_select_victim_page` enters the loop; `none` marks divergence of the
source's unbounded loop. -/
def clockReplacement (s : VMState) : Option (VMState × Nat) :=
  match clockAux s.physical_frames s.frames s.clock_hand (2 * s.physical_frames + 1) with
  | none => none
  | some (fr, h, v) => some ({ s with frames := fr, clock_hand := h }, v)

/-- `_select_victim_page`. -/
def selectVictimPage (s : VMState) (alg : String) : VMState × Except PyErr Nat :=
  if (occupiedIndices s).isEmpty then (s, .ok 0)
  else if alg = "FIFO" then
    let p := fifoReplacement s
    (p.1, .ok p.2)
  else if alg = "LRU" then (s, .ok (lruReplacement s))
  else if alg = "Clock" then
    match clockReplacement s with
    | none => (s, .error .nonTermination)
    | some (s', v) => (s', .ok v)
  else (s, .ok 0)

/-- The free-frame branch of `_handle_page_fault`: pop the lowest free frame,
mark it allocated, bind the new page, record the mapping, enqueue on the FIFO
queue. -/
def loadFreeFrame (s : VMState) (process_id : Int) (page_number : Int)
    (new_page : Page) (frame_number : Nat) (restFree : List Nat) : VMState :=
  let s := { s with free_frames := restFree,
                    free_list := s.free_list.erase frame_number }
  let s := { s with allocation_bitmap :=
    fun j => if j = frame_number then true else s.allocation_bitmap j }
  let s := s.setFrame frame_number
    { page := some new_page, load_time := s.current_time,
      last_access_time := s.current_time,
      reference_bit := false, dirty_bit := false }
  let s := setPTEntry s process_id page_number (some frame_number)
  { s with fifo_queue := s.fifo_queue ++ [frame_number] }

/-- The replacement branch of `_handle_page_fault`, after victim selection:
detach the victim's page from its owner's page table (silently skipped when
the owner no longer exists), bind the new page, record the mapping.  The
free lists, the bitmap and the FIFO queue are not touched. -/
def replaceVictim (s : VMState) (process_id : Int) (page_number : Int)
    (new_page : Page) (victim : Nat) : VMState :=
  let s := match (s.frames victim).page with
    | some oldp => setPTEntry s oldp.process_id oldp.page_number none
    | none => s
  let s := s.setFrame victim
    { page := some new_page, load_time := s.current_time,
      last_access_time := s.current_time,
      reference_bit := false, dirty_bit := false }
  setPTEntry s process_id page_number (some victim)

/-- `_handle_page_fault`. -/
def handle_page_fault (s : VMState) (process_id : Int) (page_number : Int)
    (alg : String) : VMState × Except PyErr (Bool × Msg) :=
  match s.processes process_id with
  | none => (s, .error .keyError)
  | some _ =>
    let new_page : Page :=
      { page_number := page_number, process_id := process_id,
        data := s!"Data_{process_id}_{page_number}" }
    match s.free_frames with
    | frame_number :: restFree =>
        if frame_number < s.physical_frames then
          (loadFreeFrame s process_id page_number new_page frame_number restFree,
           .ok (true, .faultLoadedFree page_number process_id frame_number))
        else
          ({ s with free_frames := restFree,
                    free_list := s.free_list.erase frame_number },
           .error .indexError)
    | [] =>
        let p := selectVictimPage s alg
        match p.2 with
        | .error e => (p.1, .error e)
        | .ok victim =>
          if victim < p.1.physical_frames then
            (replaceVictim p.1 process_id page_number new_page victim,
             .ok (true, .faultReplaced victim page_number process_id))
          else (p.1, .error .indexError)

/-- The hit path of `access_memory`: refresh the frame's last-access time,
set the reference bit, and set the dirty bit on a write. -/
def hitUpdate (s : VMState) (frame_number : Nat) (write : Bool) : VMState :=
  let fr := s.frames frame_number
  s.setFrame frame_number
    { fr with last_access_time := s.current_time,
              reference_bit := true,
              dirty_bit := if write then true else fr.dirty_bit }

/-- The unconditional bookkeeping at the top of `access_memory`: advance the
clock and count the access, globally and per algorithm. -/
def bumpAccess (s : VMState) (alg : String) : VMState :=
  bumpAlgStat
    { s with current_time := s.current_time + 1,
             memory_accesses := s.memory_accesses + 1 } alg
    (fun t => { t with memory_accesses := t.memory_accesses + 1 })

/-- Count a page hit, globally and per algorithm. -/
def bumpHit (s : VMState) (alg : String) : VMState :=
  bumpAlgStat { s with hit_count := s.hit_count + 1 } alg
    (fun t => { t with hit_count := t.hit_count + 1 })

/-- Count a page fault, globally and per algorithm. -/
def bumpFault (s : VMState) (alg : String) : VMState :=
  bumpAlgStat { s with page_faults := s.page_faults + 1 } alg
    (fun t => { t with page_faults := t.page_faults + 1 })

/-- `access_memory`. -/
def access_memory (s : VMState) (process_id : Int) (virtual_address : Int)
    (write : Bool) (alg : String) : VMState × Except PyErr (Bool × Msg) :=
  let s := bumpAccess s alg
  match s.processes process_id with
  | none => (s, .ok (false, .processNotExist process_id))
  | some process =>
    if s.page_size = 0 then (s, .error .zeroDivision)
    else
      let page_number := Int.fdiv virtual_address s.page_size
      if process.pages ≤ page_number then
        (s, .ok (false, .outOfBounds virtual_address process_id))
      else
        match ptLookup process page_number with
        | .error e => (s, .error e)
        | .ok (some frame_number) =>
            let s := bumpHit s alg
            if frame_number < s.physical_frames then
              (hitUpdate s frame_number write,
               .ok (true, .pageHit virtual_address frame_number))
            else (s, .error .indexError)
        | .ok none =>
            let s := bumpFault s alg
            handle_page_fault s process_id page_number alg

/-- `translate_address`.  It reads state but never mutates it, so no state is
returned. -/
def translate_address (s : VMState) (process_id : Int) (virtual_address : Int) :
    Except PyErr (Bool × Msg × Int) :=
  match s.processes process_id with
  | none => .ok (false, .processNotExist process_id, -1)
  | some process =>
    if s.page_size = 0 then .error .zeroDivision
    else
      let page_number := Int.fdiv virtual_address s.page_size
      let offset := Int.fmod virtual_address s.page_size
      if process.pages ≤ page_number then
        .ok (false, .outOfBoundsT virtual_address, -1)
      else
        match ptLookup process page_number with
        | .error e => .error e
        | .ok none => .ok (false, .pageNotResident page_number, -1)
        | .ok (some frame_number) =>
            let pa := (frame_number : Int) * s.page_size + offset
            .ok (true, .translated virtual_address pa frame_number offset, pa)

/-- The public mutating operations of the core. -/
inductive Op where
  | create (pid : Int) (num_pages : Int)
  | terminate (pid : Int)
  | access (pid : Int) (va : Int) (write : Bool) (alg : String)

/-- The state transition of one public call (return values discarded). -/
def applyOp (s : VMState) : Op → VMState
  | .create pid np => (create_process s pid np).1
  | .terminate pid => (terminate_process s pid).1
  | .access pid va w alg => (access_memory s pid va w alg).1

/-- Run a sequence of public calls. -/
def runOps (s : VMState) (ops : List Op) : VMState := ops.foldl applyOp s

/-- States reachable from a freshly constructed system by any sequence of
`create_process` / `terminate_process` / `access_memory` calls. -/
inductive Reachable : VMState → Prop where
  | init (n : Nat) (ps : Int) : Reachable (mkSystem n ps)
  | step (s : VMState) (op : Op) : Reachable s → Reachable (applyOp s op)

/-- The C7 scenario prefix: a fresh system with `n` frames and one process
(id 1, `np` declared pages), followed by `k` first-time FIFO loads of the
distinct pages `pg 0, ..., pg (k-1)` (accessed at the page-aligned addresses
`pg i * ps`). -/
def c7State (n : Nat) (ps np : Int) (pg : Nat → Int) (k : Nat) : VMState :=
  runOps (mkSystem n ps)
    (Op.create 1 np ::
      (List.range k).map (fun i => Op.access 1 (pg i * ps) false "FIFO"))

/-- The shape of the system after the C7 load phase fills all `n` frames:
no free frame, the FIFO queue lists the frames in load order, process 1 maps
`pg i` to frame `i` and nothing else, and frame `i` was loaded at time
`i + 1`. -/
def C7Loaded (n : Nat) (ps np : Int) (pg : Nat → Int) (s : VMState) : Prop :=
  s.physical_frames = n ∧ s.page_size = ps ∧
  s.free_frames = [] ∧ s.fifo_queue = List.range n ∧
  (∃ pr, s.processes 1 = some pr ∧ pr.pages = np ∧
    (∀ i, i < n → pr.page_table (pg i) = some i) ∧
    (∀ m, (∀ i, i < n → m ≠ pg i) → pr.page_table m = none)) ∧
  (∀ j, j < n → ((s.frames j).page).isSome = true ∧ (s.frames j).load_time = j + 1)

/-- Equality of all statistics and clock fields between two states: used to
state that the fault handler and victim selection never touch counters. -/
def CountersEq (a b : VMState) : Prop :=
  a.current_time = b.current_time ∧ a.memory_accesses = b.memory_accesses ∧
  a.page_faults = b.page_faults ∧ a.hit_count = b.hit_count ∧
  a.fifoStats = b.fifoStats ∧ a.lruStats = b.lruStats ∧ a.clockStats = b.clockStats

/-- The spec's bidirectional frame/page-table consistency: every occupied
frame has exactly one present page-table entry equal to its index (namely the
owner's entry for that page number), and every present page-table entry
points to a frame occupied by exactly that (process, page number) page. -/
def BijectionConsistent (s : VMState) : Prop :=
  (∀ i, i < s.physical_frames → ∀ p, (s.frames i).page = some p →
    (∃ pr, s.processes p.process_id = some pr ∧
      ptLookup pr p.page_number = .ok (some i)) ∧
    (∀ pid pr k, s.processes pid = some pr → ptLookup pr k = .ok (some i) →
      pid = p.process_id ∧ k = p.page_number)) ∧
  (∀ pid pr k i, s.processes pid = some pr → ptLookup pr k = .ok (some i) →
    i < s.physical_frames ∧ ∃ p, (s.frames i).page = some p ∧
      p.process_id = pid ∧ p.page_number = k)

/-- The spec's free-space consistency: the allocation bitmap is the negation
of free-list membership, and no free-listed frame holds a page. -/
def FreeSpaceConsistent (s : VMState) : Prop :=
  ∀ i, i < s.physical_frames →
    ((s.allocation_bitmap i = false ↔ i ∈ s.free_list) ∧
     (i ∈ s.free_list → (s.frames i).page = none))

/-- Distance from the clock hand `hand` to frame `j`, scanning forward
cyclically over `n` frames. -/
def cdist (n hand j : Nat) : Nat :=
  if hand ≤ j then j - hand else n - hand + j

/-- The fold implementing Python's `min(occupied_frames, key=lambda f:
f.last_access_time)` (first minimum wins). -/
def lruFold (s : VMState) (i : Nat) (t : List Nat) : Nat :=
  t.foldl
    (fun best j =>
      if (s.frames j).last_access_time < (s.frames best).last_access_time then j
      else best) i

/-- The internal consistency invariant of a `VirtualMemorySystem`:
frame/page-table bijection, free-space agreement, queue and hand sanity. -/
structure VMInv (s : VMState) : Prop where
  bij1 : ∀ i, i < s.physical_frames → ∀ p, (s.frames i).page = some p →
    ∃ pr, s.processes p.process_id = some pr ∧ 0 ≤ p.page_number ∧
      p.page_number < pr.pages ∧ pr.page_table p.page_number = some i
  bij2 : ∀ pid pr, s.processes pid = some pr → ∀ k i, pr.page_table k = some i →
    0 ≤ k ∧ k < pr.pages ∧ i < s.physical_frames ∧
    ∃ p, (s.frames i).page = some p ∧ p.process_id = pid ∧ p.page_number = k
  freeListMem : ∀ i, i ∈ s.free_list ↔ i < s.physical_frames ∧ (s.frames i).page = none
  freeFramesMem : ∀ i, i ∈ s.free_frames ↔ i < s.physical_frames ∧ (s.frames i).page = none
  freeListNodup : s.free_list.Nodup
  freeFramesNodup : s.free_frames.Nodup
  bitmapOk : ∀ i, i < s.physical_frames → s.allocation_bitmap i = ((s.frames i).page).isSome
  fifoBound : ∀ f ∈ s.fifo_queue, f < s.physical_frames
  fifoCover : ∀ i, i < s.physical_frames → ((s.frames i).page).isSome → i ∈ s.fifo_queue
  handOk : s.physical_frames = 0 ∨ s.clock_hand < s.physical_frames

theorem vminv_init (n : Nat) (ps : Int) : VMInv (mkSystem n ps) := by
  refine ⟨?_, ?_, ?_, ?_, ?_, ?_, ?_, ?_, ?_, ?_⟩
  · intro i _ p hp
    simp [mkSystem, initFrame] at hp
  · intro pid pr hpr
    simp [mkSystem] at hpr
  · intro i
    simp [mkSystem, initFrame, List.mem_range]
  · intro i
    simp [mkSystem, initFrame, List.mem_range]
  · simp only [mkSystem]
    exact List.nodup_range n
  · simp only [mkSystem]
    exact List.nodup_range n
  · intro i _
    simp [mkSystem, initFrame]
  · intro f hf
    simp [mkSystem] at hf
  · intro i _ h
    simp [mkSystem, initFrame] at h
  · rcases Nat.eq_zero_or_pos n with h | h
    · exact Or.inl h
    · exact Or.inr h

theorem vminv_create (s : VMState) (pid np : Int) (h : VMInv s) :
    VMInv (create_process s pid np).1 := by
  unfold create_process
  cases hp : s.processes pid with
  | some pr => exact h
  | none =>
      simp only
      refine ⟨?_, ?_, ?_, ?_, h.freeListNodup, h.freeFramesNodup, ?_, ?_, ?_, ?_⟩
      · intro i hi p hpg
        simp only [VMState.setProcess] at hpg hi ⊢
        obtain ⟨pr, hpr, h0, h1, h2⟩ := h.bij1 i hi p hpg
        refine ⟨pr, ?_, h0, h1, h2⟩
        by_cases hq : p.process_id = pid
        · rw [hq] at hpr; rw [hp] at hpr; cases hpr
        · simpa [hq] using hpr
      · intro q pr hq k i hk
        simp only [VMState.setProcess] at hq ⊢
        by_cases hqp : q = pid
        · subst hqp
          simp at hq
          subst hq
          simp at hk
        · rw [if_neg hqp] at hq
          exact h.bij2 q pr hq k i hk
      · intro i; exact h.freeListMem i
      · intro i; exact h.freeFramesMem i
      · intro i hi; exact h.bitmapOk i hi
      · exact h.fifoBound
      · exact h.fifoCover
      · exact h.handOk

theorem ownedBy_true_iff (s : VMState) (pid : Int) (i : Nat) :
    ownedBy s pid i = true ↔ ∃ p, (s.frames i).page = some p ∧ p.process_id = pid := by
  unfold ownedBy
  cases h : (s.frames i).page with
  | none => simp
  | some p => simp [beq_iff_eq]

theorem ownedBy_false (s : VMState) (pid : Int) (i : Nat) (p : Page)
    (hp : (s.frames i).page = some p) (h : ownedBy s pid i = false) :
    p.process_id ≠ pid := by
  intro hq
  have := (ownedBy_true_iff s pid i).mpr ⟨p, hp, hq⟩
  rw [this] at h
  cases h

theorem termFold_spec (pid : Int) (l : List Nat) (s : VMState) (hnd : l.Nodup) :
    (∀ j, (termFold pid l s).frames j =
        if j ∈ l ∧ ownedBy s pid j = true then initFrame else s.frames j) ∧
    (termFold pid l s).free_frames =
        s.free_frames ++ l.filter (fun i => ownedBy s pid i) ∧
    (termFold pid l s).free_list =
        s.free_list ++ l.filter (fun i => ownedBy s pid i) ∧
    (∀ j, (termFold pid l s).allocation_bitmap j =
        if j ∈ l ∧ ownedBy s pid j = true then false else s.allocation_bitmap j) ∧
    (termFold pid l s).physical_frames = s.physical_frames ∧
    (termFold pid l s).processes = s.processes ∧
    (termFold pid l s).fifo_queue = s.fifo_queue ∧
    (termFold pid l s).clock_hand = s.clock_hand := by
  induction l generalizing s with
  | nil => simp [termFold]
  | cons a t ih =>
      have hat : a ∉ t := (List.nodup_cons.mp hnd).1
      have htnd : t.Nodup := (List.nodup_cons.mp hnd).2
      cases howned : ownedBy s pid a with
      | false =>
          have hstep : termFold pid (a :: t) s = termFold pid t s := by
            simp [termFold, List.foldl_cons, howned]
          rw [hstep]
          obtain ⟨hf, hff, hfl, hb, hpf, hpr, hq, hch⟩ := ih s htnd
          refine ⟨?_, ?_, ?_, ?_, hpf, hpr, hq, hch⟩
          · intro j
            rw [hf j]
            by_cases hja : j = a
            · subst hja
              simp [hat, howned]
            · simp [List.mem_cons, hja]
          · rw [hff, List.filter_cons, howned]
            simp
          · rw [hfl, List.filter_cons, howned]
            simp
          · intro j
            rw [hb j]
            by_cases hja : j = a
            · subst hja
              simp [hat, howned]
            · simp [List.mem_cons, hja]
      | true =>
          have hstep : termFold pid (a :: t) s = termFold pid t (freeOneFrame s a) := by
            simp [termFold, List.foldl_cons, howned]
          rw [hstep]
          set s1 := freeOneFrame s a with hs1
          have hfr1 : ∀ j, s1.frames j = if j = a then initFrame else s.frames j := by
            intro j; simp [hs1, freeOneFrame]
          have howned1 : ∀ j, j ≠ a → ownedBy s1 pid j = ownedBy s pid j := by
            intro j hja
            unfold ownedBy
            rw [hfr1 j, if_neg hja]
          have hownedA : ownedBy s1 pid a = false := by
            unfold ownedBy
            rw [hfr1 a, if_pos rfl]
            simp [initFrame]
          obtain ⟨hf, hff, hfl, hb, hpf, hpr, hq, hch⟩ := ih s1 htnd
          have hfilter : t.filter (fun i => ownedBy s1 pid i) =
              t.filter (fun i => ownedBy s pid i) := by
            apply List.filter_congr
            intro j hj
            exact howned1 j (fun hja => hat (hja ▸ hj))
          refine ⟨?_, ?_, ?_, ?_, ?_, ?_, ?_, ?_⟩
          · intro j
            rw [hf j]
            by_cases hja : j = a
            · subst hja
              simp [hat, hfr1, howned]
            · rw [hfr1 j, if_neg hja]
              simp only [List.mem_cons, hja, false_or]
              rw [howned1 j hja]
          · rw [hff, hfilter]
            simp [hs1, freeOneFrame, List.filter_cons, howned, List.append_assoc]
          · rw [hfl, hfilter]
            simp [hs1, freeOneFrame, List.filter_cons, howned, List.append_assoc]
          · intro j
            rw [hb j]
            by_cases hja : j = a
            · subst hja
              simp [hat, hs1, freeOneFrame, howned]
            · simp only [List.mem_cons, hja, false_or]
              rw [howned1 j hja]
              have : s1.allocation_bitmap j = s.allocation_bitmap j := by
                simp [hs1, freeOneFrame, hja]
              rw [this]
          · rw [hpf]; simp [hs1, freeOneFrame]
          · rw [hpr]; simp [hs1, freeOneFrame]
          · rw [hq]; simp [hs1, freeOneFrame]
          · rw [hch]; simp [hs1, freeOneFrame]

theorem pySort_mem (l : List Nat) (i : Nat) : i ∈ pySort l ↔ i ∈ l :=
  (List.perm_insertionSort (· ≤ ·) l).mem_iff

theorem pySort_nodup (l : List Nat) (h : l.Nodup) : (pySort l).Nodup :=
  ((List.perm_insertionSort (· ≤ ·) l).nodup_iff).mpr h

theorem vminv_terminate (s : VMState) (pid : Int) (h : VMInv s) :
    VMInv (terminate_process s pid).1 := by
  unfold terminate_process
  cases hp : s.processes pid with
  | none => exact h
  | some pr0 =>
      obtain ⟨hf, hff, hfl, hb, hpf, hpr, hq, hch⟩ :=
        termFold_spec pid (List.range s.physical_frames) s (List.nodup_range _)
      set s1 := termFold pid (List.range s.physical_frames) s with hs1
      set n := s.physical_frames with hn
      -- facts about the frame table after the freeing loop
      have hfr : ∀ j, s1.frames j =
          if j < n ∧ ownedBy s pid j = true then initFrame else s.frames j := by
        intro j
        rw [hf j]
        by_cases hj : j < n
        · simp [List.mem_range, hj]
        · simp [List.mem_range, hj]
      have hpageNone : ∀ j, j < n → ((s1.frames j).page = none ↔
          ((s.frames j).page = none ∨ ownedBy s pid j = true)) := by
        intro j hj
        rw [hfr j]
        by_cases ho : ownedBy s pid j = true
        · simp [hj, ho, initFrame]
        · simp [hj, ho]
      have hfreed_mem : ∀ i, i ∈ (List.range n).filter (fun i => ownedBy s pid i) ↔
          i < n ∧ ownedBy s pid i = true := by
        intro i
        simp [List.mem_filter, List.mem_range]
      -- nodup of the appended free lists
      have hdisj : ∀ i ∈ s.free_list, i ∉ (List.range n).filter (fun i => ownedBy s pid i) := by
        intro i hi hmem
        rw [hfreed_mem] at hmem
        have := (h.freeListMem i).mp hi
        rcases (ownedBy_true_iff s pid i).mp hmem.2 with ⟨p, hpg, _⟩
        rw [this.2] at hpg
        cases hpg
      have hdisjF : ∀ i ∈ s.free_frames,
          i ∉ (List.range n).filter (fun i => ownedBy s pid i) := by
        intro i hi hmem
        rw [hfreed_mem] at hmem
        have := (h.freeFramesMem i).mp hi
        rcases (ownedBy_true_iff s pid i).mp hmem.2 with ⟨p, hpg, _⟩
        rw [this.2] at hpg
        cases hpg
      have hndfl : s1.free_list.Nodup := by
        rw [hfl]
        exact List.Nodup.append h.freeListNodup
          (List.Nodup.filter _ (List.nodup_range n)) (by
            intro i hi hj
            exact hdisj i hi hj)
      have hndff : s1.free_frames.Nodup := by
        rw [hff]
        exact List.Nodup.append h.freeFramesNodup
          (List.Nodup.filter _ (List.nodup_range n)) (by
            intro i hi hj
            exact hdisjF i hi hj)
      have hmem1 : ∀ i, i ∈ s1.free_list ↔ i < n ∧ (s1.frames i).page = none := by
        intro i
        rw [hfl, List.mem_append, hfreed_mem, h.freeListMem i]
        constructor
        · rintro (⟨hi, hnone⟩ | ⟨hi, how⟩)
          · exact ⟨hi, (hpageNone i hi).mpr (Or.inl hnone)⟩
          · exact ⟨hi, (hpageNone i hi).mpr (Or.inr how)⟩
        · rintro ⟨hi, hnone⟩
          rcases (hpageNone i hi).mp hnone with hcase | hcase
          · exact Or.inl ⟨hi, hcase⟩
          · exact Or.inr ⟨hi, hcase⟩
      have hmem1F : ∀ i, i ∈ s1.free_frames ↔ i < n ∧ (s1.frames i).page = none := by
        intro i
        rw [hff, List.mem_append, hfreed_mem, h.freeFramesMem i]
        constructor
        · rintro (⟨hi, hnone⟩ | ⟨hi, how⟩)
          · exact ⟨hi, (hpageNone i hi).mpr (Or.inl hnone)⟩
          · exact ⟨hi, (hpageNone i hi).mpr (Or.inr how)⟩
        · rintro ⟨hi, hnone⟩
          rcases (hpageNone i hi).mp hnone with hcase | hcase
          · exact Or.inl ⟨hi, hcase⟩
          · exact Or.inr ⟨hi, hcase⟩
      -- the final state
      refine ⟨?_, ?_, ?_, ?_, ?_, ?_, ?_, ?_, ?_, ?_⟩
      · -- bij1
        intro i hi p hpg
        simp only [VMState.setProcess] at hpg hi ⊢
        rw [hpf] at hi
        rw [hfr i] at hpg
        by_cases hcond : i < n ∧ ownedBy s pid i = true
        · rw [if_pos hcond] at hpg
          simp [initFrame] at hpg
        · rw [if_neg hcond] at hpg
          have how : ownedBy s pid i = false := by
            rcases Bool.eq_false_or_eq_true (ownedBy s pid i) with hc | hc
            · exact absurd ⟨hi, hc⟩ hcond
            · exact hc
          have hne : p.process_id ≠ pid := ownedBy_false s pid i p hpg how
          obtain ⟨pr, hpr', h0, h1, h2⟩ := h.bij1 i hi p hpg
          refine ⟨pr, ?_, h0, h1, h2⟩
          rw [hpr]
          simp [hne, hpr']
      · -- bij2
        intro q pr hq' k i hk
        simp only [VMState.setProcess] at hq' ⊢
        rw [hpr] at hq'
        by_cases hqp : q = pid
        · subst hqp
          simp at hq'
        · rw [if_neg hqp] at hq'
          obtain ⟨h0, h1, h2, p, hpg, hpid, hpn⟩ := h.bij2 q pr hq' k i hk
          rw [hpf]
          refine ⟨h0, h1, h2, p, ?_, hpid, hpn⟩
          rw [hfr i]
          have how : ownedBy s pid i = false := by
            rcases Bool.eq_false_or_eq_true (ownedBy s pid i) with hc | hc
            · rcases (ownedBy_true_iff s pid i).mp hc with ⟨p', hp', hpid'⟩
              rw [hpg] at hp'
              cases hp'
              exact absurd (hpid ▸ hpid') hqp
            · exact hc
          simp [how, hpg]
      · -- freeListMem
        intro i
        simp only [VMState.setProcess]
        rw [hpf, pySort_mem, hmem1 i]
      · -- freeFramesMem
        intro i
        simp only [VMState.setProcess]
        rw [hpf, pySort_mem, hmem1F i]
      · -- freeListNodup
        simp only [VMState.setProcess]
        exact pySort_nodup _ hndfl
      · -- freeFramesNodup
        simp only [VMState.setProcess]
        exact pySort_nodup _ hndff
      · -- bitmapOk
        intro i hi
        simp only [VMState.setProcess] at hi ⊢
        rw [hpf] at hi
        rw [hb i, hfr i]
        by_cases hcond : i ∈ List.range n ∧ ownedBy s pid i = true
        · have hcond' : i < n ∧ ownedBy s pid i = true := by
            rcases hcond with ⟨hm, ho⟩
            exact ⟨List.mem_range.mp hm, ho⟩
          rw [if_pos hcond, if_pos hcond']
          simp [initFrame]
        · have hcond' : ¬(i < n ∧ ownedBy s pid i = true) := by
            intro hc
            exact hcond ⟨List.mem_range.mpr hc.1, hc.2⟩
          rw [if_neg hcond, if_neg hcond']
          exact h.bitmapOk i hi
      · -- fifoBound
        intro f hfm
        simp only [VMState.setProcess] at hfm ⊢
        rw [hpf]
        rw [hq] at hfm
        have hfm' : f ∈ s.fifo_queue := List.mem_of_mem_filter hfm
        exact h.fifoBound f hfm'
      · -- fifoCover
        intro i hi hsome
        simp only [VMState.setProcess] at hi hsome ⊢
        rw [hpf] at hi
        rw [hfr i] at hsome
        by_cases hcond : i < n ∧ ownedBy s pid i = true
        · rw [if_pos hcond] at hsome
          simp [initFrame] at hsome
        · rw [if_neg hcond] at hsome
          have how : ownedBy s pid i = false := by
            rcases Bool.eq_false_or_eq_true (ownedBy s pid i) with hc | hc
            · exact absurd ⟨hi, hc⟩ hcond
            · exact hc
          have hin : i ∈ s.fifo_queue := h.fifoCover i hi hsome
          rw [hq]
          apply List.mem_filter.mpr
          refine ⟨hin, ?_⟩
          rcases hps : (s.frames i).page with _ | p
          · rw [hps] at hsome
            simp at hsome
          · have hne : p.process_id ≠ pid := ownedBy_false s pid i p hps how
            have hfr2 : s1.frames i = s.frames i := by
              rw [hfr i]
              simp [hcond]
            simp only [hfr2, hps]
            simpa using hne
      · -- handOk
        simp only [VMState.setProcess]
        rw [hpf, hch]
        exact h.handOk

theorem cdist_lt (n hand j : Nat) (hn : 0 < n) (hh : hand < n) (hj : j < n) :
    cdist n hand j < n := by
  unfold cdist
  split <;> omega

theorem cdist_eq_zero (n hand j : Nat) (hh : hand < n) (hj : j < n)
    (h : cdist n hand j = 0) : hand = j := by
  unfold cdist at h
  by_cases hle : hand ≤ j
  · rw [if_pos hle] at h; omega
  · rw [if_neg hle] at h; omega

theorem cdist_step (n hand j : Nat) (hn : 0 < n) (hh : hand < n) (hj : j < n)
    (hne : hand ≠ j) : cdist n hand j = cdist n ((hand + 1) % n) j + 1 := by
  rcases Nat.lt_or_ge (hand + 1) n with hlt | hge
  · rw [Nat.mod_eq_of_lt hlt]
    unfold cdist
    split <;> split <;> omega
  · have he : hand + 1 = n := by omega
    rw [he, Nat.mod_self]
    unfold cdist
    split <;> split <;> omega

theorem cdist_back (n j : Nat) (hn : 0 < n) (hj : j < n) :
    cdist n ((j + 1) % n) j = n - 1 := by
  rcases Nat.lt_or_ge (j + 1) n with hlt | hge
  · rw [Nat.mod_eq_of_lt hlt]
    unfold cdist
    split <;> omega
  · have he : j + 1 = n := by omega
    rw [he, Nat.mod_self]
    unfold cdist
    split <;> omega

/-- Structural facts about a successful clock scan: pages and all
non-reference-bit metadata are untouched, the victim is the frame just before
the final hand position, it is occupied, and hand and victim stay in range. -/
theorem clockAux_spec (n : Nat) :
    ∀ (fuel : Nat) (frames : Nat → Frame) (hand : Nat) fr' h' v,
    clockAux n frames hand fuel = some (fr', h', v) →
    (∀ i, (fr' i).page = (frames i).page ∧ (fr' i).load_time = (frames i).load_time ∧
      (fr' i).last_access_time = (frames i).last_access_time ∧
      (fr' i).dirty_bit = (frames i).dirty_bit) ∧
    ((fr' v).page).isSome = true ∧ h' = (v + 1) % n ∧
    (0 < n → hand < n → v < n ∧ h' < n) := by
  intro fuel
  induction fuel with
  | zero => intro frames hand fr' h' v h; cases h
  | succ fuel ih =>
      intro frames hand fr' h' v h
      unfold clockAux at h
      cases hpg : (frames hand).page with
      | none =>
          simp only [hpg] at h
          obtain ⟨h1, h2, h3, h4⟩ := ih frames ((hand + 1) % n) fr' h' v h
          refine ⟨h1, h2, h3, fun hn _ => h4 hn (Nat.mod_lt _ hn)⟩
      | some p =>
          simp only [hpg] at h
          cases href : (frames hand).reference_bit with
          | true =>
              simp only [href, if_true] at h
              obtain ⟨h1, h2, h3, h4⟩ := ih _ ((hand + 1) % n) fr' h' v h
              refine ⟨?_, h2, h3, fun hn _ => h4 hn (Nat.mod_lt _ hn)⟩
              intro i
              obtain ⟨e1, e2, e3, e4⟩ := h1 i
              by_cases hih : i = hand
              · subst hih
                rw [e1, e2, e3, e4]
                simp [hpg]
              · rw [e1, e2, e3, e4]
                simp [hih]
          | false =>
              simp only [href, Bool.false_eq_true, if_false, Option.some.injEq,
                Prod.mk.injEq] at h
              obtain ⟨e1, e2, e3⟩ := h
              subst e1; subst e2; subst e3
              refine ⟨fun i => ⟨rfl, rfl, rfl, rfl⟩, by rw [hpg]; rfl, rfl, ?_⟩
              intro hn hh
              exact ⟨hh, Nat.mod_lt _ hn⟩

/-- If some frame ahead of the hand is occupied with a cleared reference bit,
the clock scan succeeds within `distance + 1` steps. -/
theorem clockAux_reaches (n : Nat) (hn : 0 < n) :
    ∀ (d : Nat) (frames : Nat → Frame) (hand j fuel : Nat), hand < n → j < n →
    cdist n hand j = d → ((frames j).page).isSome = true →
    (frames j).reference_bit = false → d < fuel →
    (clockAux n frames hand fuel).isSome = true := by
  intro d
  induction d with
  | zero =>
      intro frames hand j fuel hh hj hd hocc href hfuel
      have he : hand = j := cdist_eq_zero n hand j hh hj hd
      subst he
      cases fuel with
      | zero => omega
      | succ fuel =>
          unfold clockAux
          cases hpg : (frames hand).page with
          | none => rw [hpg] at hocc; cases hocc
          | some p => simp [hpg, href]
  | succ d ih =>
      intro frames hand j fuel hh hj hd hocc href hfuel
      have hne : hand ≠ j := by
        intro he
        subst he
        unfold cdist at hd
        simp at hd
      have hstep : cdist n ((hand + 1) % n) j = d := by
        have := cdist_step n hand j hn hh hj hne
        omega
      cases fuel with
      | zero => omega
      | succ fuel =>
          unfold clockAux
          cases hpg : (frames hand).page with
          | none =>
              simp only [hpg]
              exact ih frames ((hand + 1) % n) j fuel (Nat.mod_lt _ hn) hj hstep hocc href
                (by omega)
          | some p =>
              simp only [hpg]
              cases hrefh : (frames hand).reference_bit with
              | true =>
                  simp only [hrefh, if_true]
                  refine ih _ ((hand + 1) % n) j fuel (Nat.mod_lt _ hn) hj hstep ?_ ?_
                    (by omega)
                  · simpa [Ne.symm hne] using hocc
                  · simpa [Ne.symm hne] using href
              | false =>
                  simp [hrefh]

/-- The clock scan terminates whenever at least one frame is occupied. -/
theorem clockAux_total (n : Nat) (hn : 0 < n) :
    ∀ (d : Nat) (frames : Nat → Frame) (hand j fuel : Nat), hand < n → j < n →
    cdist n hand j = d → ((frames j).page).isSome = true → n + d < fuel →
    (clockAux n frames hand fuel).isSome = true := by
  intro d
  induction d with
  | zero =>
      intro frames hand j fuel hh hj hd hocc hfuel
      have he : hand = j := cdist_eq_zero n hand j hh hj hd
      subst he
      cases fuel with
      | zero => omega
      | succ fuel =>
          unfold clockAux
          cases hpg : (frames hand).page with
          | none => rw [hpg] at hocc; cases hocc
          | some p =>
              simp only [hpg]
              cases hrefh : (frames hand).reference_bit with
              | true =>
                  simp only [hrefh, if_true]
                  refine clockAux_reaches n hn (n - 1) _ ((hand + 1) % n) hand fuel
                    (Nat.mod_lt _ hn) hh (cdist_back n hand hn hh) ?_ ?_ (by omega)
                  · simp [hpg]
                  · simp
              | false =>
                  simp [hrefh]
  | succ d ih =>
      intro frames hand j fuel hh hj hd hocc hfuel
      have hne : hand ≠ j := by
        intro he
        subst he
        unfold cdist at hd
        simp at hd
      have hstep : cdist n ((hand + 1) % n) j = d := by
        have := cdist_step n hand j hn hh hj hne
        omega
      cases fuel with
      | zero => omega
      | succ fuel =>
          unfold clockAux
          cases hpg : (frames hand).page with
          | none =>
              simp only [hpg]
              exact ih frames ((hand + 1) % n) j fuel (Nat.mod_lt _ hn) hj hstep hocc
                (by omega)
          | some p =>
              simp only [hpg]
              cases hrefh : (frames hand).reference_bit with
              | true =>
                  simp only [hrefh, if_true]
                  refine ih _ ((hand + 1) % n) j fuel (Nat.mod_lt _ hn) hj hstep ?_
                    (by omega)
                  simpa [Ne.symm hne] using hocc
              | false =>
                  simp [hrefh]

/-- Mid-sweep characterisation of the clock scan: if every frame is occupied
and the reference bits that are still set are exactly the next `t` positions
ahead of the hand, the scan clears them all, selects the frame `t` positions
ahead, and leaves the hand one past the victim. -/
theorem clockAux_sweep (n : Nat) (hn : 0 < n) :
    ∀ (t : Nat) (frames : Nat → Frame) (hand fuel : Nat), hand < n → t ≤ n →
    (∀ i, i < n → ((frames i).page).isSome = true) →
    (∀ i, i < n → ((frames i).reference_bit = true ↔ cdist n hand i < t)) →
    t < fuel →
    ∃ fr', clockAux n frames hand fuel =
        some (fr', ((hand + t) % n + 1) % n, (hand + t) % n) ∧
      ∀ i, i < n → (fr' i).page = (frames i).page ∧ (fr' i).reference_bit = false := by
  intro t
  induction t with
  | zero =>
      intro frames hand fuel hh ht hocc href hfuel
      cases fuel with
      | zero => omega
      | succ fuel =>
          unfold clockAux
          cases hpg : (frames hand).page with
          | none =>
              have := hocc hand hh
              rw [hpg] at this
              cases this
          | some p =>
              have hrf : (frames hand).reference_bit = false := by
                rcases Bool.eq_false_or_eq_true ((frames hand).reference_bit) with hc | hc
                · have := (href hand hh).mp hc
                  omega
                · exact hc
              refine ⟨frames, ?_, ?_⟩
              · simp [hpg, hrf, Nat.mod_eq_of_lt hh]
              · intro i hi
                refine ⟨rfl, ?_⟩
                rcases Bool.eq_false_or_eq_true ((frames i).reference_bit) with hc | hc
                · have := (href i hi).mp hc
                  omega
                · exact hc
  | succ t ih =>
      intro frames hand fuel hh ht hocc href hfuel
      cases fuel with
      | zero => omega
      | succ fuel =>
          unfold clockAux
          cases hpg : (frames hand).page with
          | none =>
              have := hocc hand hh
              rw [hpg] at this
              cases this
          | some p =>
              have hrt : (frames hand).reference_bit = true := by
                apply (href hand hh).mpr
                unfold cdist
                simp
              simp only [hpg, hrt, if_true]
              set frames1 : Nat → Frame := fun j =>
                if j = hand then
                  { page := some p, load_time := (frames hand).load_time,
                    last_access_time := (frames hand).last_access_time,
                    reference_bit := false, dirty_bit := (frames hand).dirty_bit }
                else frames j with hframes1
              have hocc1 : ∀ i, i < n → ((frames1 i).page).isSome = true := by
                intro i hi
                by_cases hih : i = hand
                · subst hih
                  simp [hframes1]
                · simpa [hframes1, hih] using hocc i hi
              have href1 : ∀ i, i < n →
                  ((frames1 i).reference_bit = true ↔ cdist n ((hand + 1) % n) i < t) := by
                intro i hi
                by_cases hih : i = hand
                · have hcb : cdist n ((hand + 1) % n) hand = n - 1 :=
                    cdist_back n hand hn hh
                  rw [hih]
                  simp [hframes1, hcb]
                  omega
                · have hstep : cdist n hand i = cdist n ((hand + 1) % n) i + 1 :=
                    cdist_step n hand i hn hh hi (fun he => hih he.symm)
                  have := href i hi
                  rw [hstep] at this
                  simp only [hframes1, if_neg hih]
                  rw [this]
                  omega
              obtain ⟨fr', heq, hprops⟩ := ih frames1 ((hand + 1) % n) fuel
                (Nat.mod_lt _ hn) (by omega) hocc1 href1 (by omega)
              refine ⟨fr', ?_, ?_⟩
              · rw [heq]
                have hm : ((hand + 1) % n + t) % n = (hand + (t + 1)) % n := by
                  rw [Nat.mod_add_mod]
                  congr 1
                  omega
                rw [hm]
              · intro i hi
                obtain ⟨e1, e2⟩ := hprops i hi
                refine ⟨?_, e2⟩
                rw [e1]
                by_cases hih : i = hand
                · rw [hih]
                  simp [hframes1, hpg]
                · simp [hframes1, hih]

theorem lruFold_spec (s : VMState) :
    ∀ (t : List Nat) (i : Nat), (i :: t).Pairwise (· < ·) →
    lruFold s i t ∈ i :: t ∧
    (∀ j ∈ i :: t,
      (s.frames (lruFold s i t)).last_access_time ≤ (s.frames j).last_access_time) ∧
    (∀ j ∈ i :: t, j < lruFold s i t →
      (s.frames (lruFold s i t)).last_access_time < (s.frames j).last_access_time) ∧
    (lruFold s i t = i ∨
      (s.frames (lruFold s i t)).last_access_time < (s.frames i).last_access_time) := by
  intro t
  induction t with
  | nil =>
      intro i _
      refine ⟨List.mem_singleton.mpr rfl, ?_, ?_, Or.inl rfl⟩
      · intro j hj
        rw [List.mem_singleton.mp hj]
        exact Nat.le_refl _
      · intro j hj hlt
        rw [List.mem_singleton.mp hj] at hlt
        exact absurd hlt (by simp [lruFold])
  | cons a t2 ih =>
      intro i hsort
      have hia : i < a := (List.pairwise_cons.mp hsort).1 a (List.mem_cons_self a t2)
      have hit2 : ∀ j ∈ t2, i < j := by
        intro j hj
        exact (List.pairwise_cons.mp hsort).1 j (List.mem_cons_of_mem a hj)
      have hat2 : (a :: t2).Pairwise (· < ·) := (List.pairwise_cons.mp hsort).2
      set best := if (s.frames a).last_access_time < (s.frames i).last_access_time
        then a else i with hbest
      have hstep : lruFold s i (a :: t2) = lruFold s best t2 := by
        simp [lruFold, List.foldl_cons, hbest]
      have hsort2 : (best :: t2).Pairwise (· < ·) := by
        rw [List.pairwise_cons]
        refine ⟨?_, (List.pairwise_cons.mp hat2).2⟩
        intro j hj
        rw [hbest]
        split
        · exact (List.pairwise_cons.mp hat2).1 j hj
        · exact hit2 j hj
      obtain ⟨h1, h2, h3, h4⟩ := ih best hsort2
      rw [hstep]
      have hbestm : best = a ∨ best = i := by
        rw [hbest]; split
        · exact Or.inl rfl
        · exact Or.inr rfl
      have hbli : (s.frames best).last_access_time ≤ (s.frames i).last_access_time := by
        rw [hbest]; split
        · omega
        · exact Nat.le_refl _
      have hbla : (s.frames best).last_access_time ≤ (s.frames a).last_access_time := by
        rw [hbest]; split
        · exact Nat.le_refl _
        · omega
      have hbcond : best = a →
          (s.frames a).last_access_time < (s.frames i).last_access_time := by
        intro hb
        rw [hbest] at hb
        by_cases hcon : (s.frames a).last_access_time < (s.frames i).last_access_time
        · exact hcon
        · rw [if_neg hcon] at hb
          omega
      refine ⟨?_, ?_, ?_, ?_⟩
      · rcases List.mem_cons.mp h1 with hc | hc
        · rcases hbestm with hb | hb
          · rw [hc, hb]
            exact List.mem_cons_of_mem i (List.mem_cons_self a t2)
          · rw [hc, hb]
            exact List.mem_cons_self i (a :: t2)
        · exact List.mem_cons_of_mem i (List.mem_cons_of_mem a hc)
      · intro j hj
        rcases List.mem_cons.mp hj with hc | hc
        · rw [hc]
          exact Nat.le_trans (h2 best (List.mem_cons_self best t2)) hbli
        · rcases List.mem_cons.mp hc with hc2 | hc2
          · rw [hc2]
            exact Nat.le_trans (h2 best (List.mem_cons_self best t2)) hbla
          · exact h2 j (List.mem_cons_of_mem best hc2)
      · intro j hj hlt
        rcases List.mem_cons.mp hj with hc | hc
        · -- j = i: i cannot be below the minimum with equal key, so strict
          rw [hc]
          rcases h4 with hr | hr
          · rcases hbestm with hb | hb
            · rw [hr, hb]
              exact hbcond hb
            · rw [hc, hr, hb] at hlt
              exact absurd hlt (Nat.lt_irrefl _)
          · exact Nat.lt_of_lt_of_le hr hbli
        · rcases List.mem_cons.mp hc with hc2 | hc2
          · rw [hc2]
            rcases h4 with hr | hr
            · rcases hbestm with hb | hb
              · rw [hc2, hr, hb] at hlt
                exact absurd hlt (Nat.lt_irrefl _)
              · rw [hc2, hr, hb] at hlt
                omega
            · exact Nat.lt_of_lt_of_le hr hbla
          · exact h3 j (List.mem_cons_of_mem best hc2) hlt
      · rcases h4 with hr | hr
        · rcases hbestm with hb | hb
          · rw [hr, hb]
            right
            exact hbcond hb
          · rw [hr, hb]
            left; rfl
        · right
          exact Nat.lt_of_lt_of_le hr hbli

/-- `VMInv` only looks at the listed components, so it transfers across any
state change that preserves them (page content of each frame rather than the
whole frame record). -/
theorem vminv_transfer (s s' : VMState)
    (hn : s'.physical_frames = s.physical_frames)
    (hfr : ∀ i, (s'.frames i).page = (s.frames i).page)
    (hpr : s'.processes = s.processes)
    (hff : s'.free_frames = s.free_frames)
    (hfl : s'.free_list = s.free_list)
    (hbm : ∀ i, s'.allocation_bitmap i = s.allocation_bitmap i)
    (hq : s'.fifo_queue = s.fifo_queue)
    (hhand : s'.physical_frames = 0 ∨ s'.clock_hand < s'.physical_frames)
    (h : VMInv s) : VMInv s' := by
  refine ⟨?_, ?_, ?_, ?_, ?_, ?_, ?_, ?_, ?_, hhand⟩
  · intro i hi p hpg
    rw [hn] at hi
    rw [hfr i] at hpg
    rw [hpr]
    exact h.bij1 i hi p hpg
  · intro pid pr hp k i hk
    rw [hpr] at hp
    obtain ⟨g0, g1, g2, p, g3, g4, g5⟩ := h.bij2 pid pr hp k i hk
    rw [hn, hfr i]
    exact ⟨g0, g1, g2, p, g3, g4, g5⟩
  · intro i
    rw [hfl, hn, hfr i]
    exact h.freeListMem i
  · intro i
    rw [hff, hn, hfr i]
    exact h.freeFramesMem i
  · rw [hfl]; exact h.freeListNodup
  · rw [hff]; exact h.freeFramesNodup
  · intro i hi
    rw [hn] at hi
    rw [hbm i, hfr i]
    exact h.bitmapOk i hi
  · intro f hf
    rw [hq] at hf
    rw [hn]
    exact h.fifoBound f hf
  · intro i hi hsome
    rw [hn] at hi
    rw [hfr i] at hsome
    rw [hq]
    exact h.fifoCover i hi hsome

/-- Replacing the FIFO queue by one with the same members preserves the
invariant. -/
theorem vminv_queue (s : VMState) (q : List Nat)
    (hmem : ∀ x, x ∈ q ↔ x ∈ s.fifo_queue) (h : VMInv s) :
    VMInv { s with fifo_queue := q } := by
  refine ⟨h.bij1, h.bij2, h.freeListMem, h.freeFramesMem, h.freeListNodup,
    h.freeFramesNodup, h.bitmapOk, ?_, ?_, h.handOk⟩
  · intro f hf
    exact h.fifoBound f ((hmem f).mp hf)
  · intro i hi hsome
    exact (hmem i).mpr (h.fifoCover i hi hsome)

/-- `setPTEntry` changes only the process dictionary. -/
theorem setPTEntry_fields (s : VMState) (pid k : Int) (v : Option Nat) :
    (setPTEntry s pid k v).frames = s.frames ∧
    (setPTEntry s pid k v).physical_frames = s.physical_frames ∧
    (setPTEntry s pid k v).free_frames = s.free_frames ∧
    (setPTEntry s pid k v).free_list = s.free_list ∧
    (setPTEntry s pid k v).allocation_bitmap = s.allocation_bitmap ∧
    (setPTEntry s pid k v).fifo_queue = s.fifo_queue ∧
    (setPTEntry s pid k v).clock_hand = s.clock_hand ∧
    (setPTEntry s pid k v).current_time = s.current_time ∧
    (setPTEntry s pid k v).page_size = s.page_size := by
  unfold setPTEntry
  cases s.processes pid <;>
    exact ⟨rfl, rfl, rfl, rfl, rfl, rfl, rfl, rfl, rfl⟩

/-- The process dictionary after `setPTEntry` when the process exists. -/
theorem setPTEntry_processes (s : VMState) (pid k : Int) (v : Option Nat)
    (pr : Process) (hpr : s.processes pid = some pr) :
    (setPTEntry s pid k v).processes = fun q => if q = pid then
      some { pr with page_table := fun j => if j = k then v else pr.page_table j }
    else s.processes q := by
  unfold setPTEntry
  rw [hpr]
  rfl

/-- `bumpAlgStat` changes only the statistics rows. -/
theorem bumpAlgStat_fields (s : VMState) (alg : String) (f : Stats → Stats) :
    (bumpAlgStat s alg f).frames = s.frames ∧
    (bumpAlgStat s alg f).physical_frames = s.physical_frames ∧
    (bumpAlgStat s alg f).processes = s.processes ∧
    (bumpAlgStat s alg f).free_frames = s.free_frames ∧
    (bumpAlgStat s alg f).free_list = s.free_list ∧
    (bumpAlgStat s alg f).allocation_bitmap = s.allocation_bitmap ∧
    (bumpAlgStat s alg f).fifo_queue = s.fifo_queue ∧
    (bumpAlgStat s alg f).clock_hand = s.clock_hand ∧
    (bumpAlgStat s alg f).current_time = s.current_time ∧
    (bumpAlgStat s alg f).page_size = s.page_size := by
  unfold bumpAlgStat
  split
  · exact ⟨rfl, rfl, rfl, rfl, rfl, rfl, rfl, rfl, rfl, rfl⟩
  · split
    · exact ⟨rfl, rfl, rfl, rfl, rfl, rfl, rfl, rfl, rfl, rfl⟩
    · split
      · exact ⟨rfl, rfl, rfl, rfl, rfl, rfl, rfl, rfl, rfl, rfl⟩
      · exact ⟨rfl, rfl, rfl, rfl, rfl, rfl, rfl, rfl, rfl, rfl⟩

/-- If the free list is empty but some frame exists, every frame is occupied. -/
theorem all_occupied_of_free_empty (s : VMState) (h : VMInv s)
    (hfree : s.free_frames = []) (i : Nat) (hi : i < s.physical_frames) :
    ((s.frames i).page).isSome = true := by
  rcases hpg : (s.frames i).page with _ | p
  · have := (h.freeFramesMem i).mpr ⟨hi, hpg⟩
    rw [hfree] at this
    cases this
  · rfl

/-- Victim selection: preserves the invariant and all core fields other than
reference bits, hand and queue order, and returns an in-range victim whenever
a frame exists and the free list is empty. -/
theorem select_inv (s : VMState) (h : VMInv s) (alg : String)
    (hfree : s.free_frames = []) :
    (∀ i, ((selectVictimPage s alg).1.frames i).page = (s.frames i).page) ∧
    (selectVictimPage s alg).1.processes = s.processes ∧
    (selectVictimPage s alg).1.physical_frames = s.physical_frames ∧
    (selectVictimPage s alg).1.free_frames = s.free_frames ∧
    (selectVictimPage s alg).1.free_list = s.free_list ∧
    (selectVictimPage s alg).1.allocation_bitmap = s.allocation_bitmap ∧
    (selectVictimPage s alg).1.current_time = s.current_time ∧
    (selectVictimPage s alg).1.page_size = s.page_size ∧
    VMInv (selectVictimPage s alg).1 ∧
    (0 < s.physical_frames →
      ∃ v, (selectVictimPage s alg).2 = .ok v ∧ v < s.physical_frames) := by
  have hocc_of_pos : 0 < s.physical_frames → ¬ (occupiedIndices s).isEmpty = true := by
    intro hn hemp
    have h0 : (0 : Nat) ∈ occupiedIndices s := by
      unfold occupiedIndices
      rw [List.mem_filter]
      exact ⟨List.mem_range.mpr hn, all_occupied_of_free_empty s h hfree 0 hn⟩
    rw [List.isEmpty_iff] at hemp
    rw [hemp] at h0
    cases h0
  by_cases hemp : (occupiedIndices s).isEmpty = true
  · have hsel : selectVictimPage s alg = (s, .ok 0) := by
      simp [selectVictimPage, hemp]
    rw [hsel]
    refine ⟨fun i => rfl, rfl, rfl, rfl, rfl, rfl, rfl, rfl, h, ?_⟩
    intro hn
    exact absurd hemp (hocc_of_pos hn)
  · by_cases hfifo : alg = "FIFO"
    · cases hq : s.fifo_queue with
      | nil =>
          have hsel : selectVictimPage s alg = (s, .ok 0) := by
            simp [selectVictimPage, hemp, hfifo, fifoReplacement, hq]
          rw [hsel]
          refine ⟨fun i => rfl, rfl, rfl, rfl, rfl, rfl, rfl, rfl, h, ?_⟩
          intro hn
          have h0 : ((s.frames 0).page).isSome = true :=
            all_occupied_of_free_empty s h hfree 0 hn
          have := h.fifoCover 0 hn h0
          rw [hq] at this
          cases this
      | cons f rest =>
          have hsel : selectVictimPage s alg =
              ({ s with fifo_queue := rest ++ [f] }, .ok f) := by
            simp [selectVictimPage, hemp, hfifo, fifoReplacement, hq]
          rw [hsel]
          have hmem : ∀ x, x ∈ rest ++ [f] ↔ x ∈ s.fifo_queue := by
            intro x
            rw [hq]
            simp [List.mem_append, List.mem_cons]
            tauto
          refine ⟨fun i => rfl, rfl, rfl, rfl, rfl, rfl, rfl, rfl,
            vminv_queue s (rest ++ [f]) hmem h, ?_⟩
          intro _
          refine ⟨f, rfl, ?_⟩
          exact h.fifoBound f (by rw [hq]; exact List.mem_cons_self f rest)
    · by_cases hlru : alg = "LRU"
      · have hsel : selectVictimPage s alg = (s, .ok (lruReplacement s)) := by
          simp [selectVictimPage, hemp, hfifo, hlru]
        rw [hsel]
        refine ⟨fun i => rfl, rfl, rfl, rfl, rfl, rfl, rfl, rfl, h, ?_⟩
        intro hn
        refine ⟨lruReplacement s, rfl, ?_⟩
        unfold lruReplacement
        cases hoc : occupiedIndices s with
        | nil => rw [hoc] at hemp; exact absurd rfl hemp
        | cons i0 t =>
            have hsorted : (i0 :: t).Pairwise (· < ·) := by
              rw [← hoc]
              unfold occupiedIndices
              exact (List.pairwise_lt_range s.physical_frames).filter _
            obtain ⟨h1, _, _, _⟩ := lruFold_spec s t i0 hsorted
            have hmm : lruFold s i0 t ∈ occupiedIndices s := by rw [hoc]; exact h1
            unfold occupiedIndices at hmm
            rw [List.mem_filter] at hmm
            have := List.mem_range.mp hmm.1
            simpa [lruFold] using this
      · by_cases hclk : alg = "Clock"
        · -- there is an occupied frame
          have hnonempty : ∃ j, j < s.physical_frames ∧
              ((s.frames j).page).isSome = true := by
            cases hoc : occupiedIndices s with
            | nil => rw [hoc] at hemp; exact absurd rfl hemp
            | cons j t =>
                have hjm : j ∈ occupiedIndices s := by
                  rw [hoc]; exact List.mem_cons_self j t
                unfold occupiedIndices at hjm
                rw [List.mem_filter] at hjm
                exact ⟨j, List.mem_range.mp hjm.1, hjm.2⟩
          obtain ⟨j, hj, hjocc⟩ := hnonempty
          have hn : 0 < s.physical_frames := Nat.lt_of_le_of_lt (Nat.zero_le j) hj
          have hhand : s.clock_hand < s.physical_frames := by
            rcases h.handOk with h0 | h0
            · omega
            · exact h0
          have htot : (clockAux s.physical_frames s.frames s.clock_hand
              (2 * s.physical_frames + 1)).isSome = true := by
            refine clockAux_total s.physical_frames hn
              (cdist s.physical_frames s.clock_hand j) s.frames s.clock_hand j
              (2 * s.physical_frames + 1) hhand hj rfl hjocc ?_
            have := cdist_lt s.physical_frames s.clock_hand j hn hhand hj
            omega
          cases hca : clockAux s.physical_frames s.frames s.clock_hand
              (2 * s.physical_frames + 1) with
          | none => rw [hca] at htot; cases htot
          | some res =>
              obtain ⟨fr', h', v⟩ := res
              obtain ⟨hps, hvocc, hh', hrange⟩ :=
                clockAux_spec s.physical_frames (2 * s.physical_frames + 1)
                  s.frames s.clock_hand fr' h' v hca
              have hsel : selectVictimPage s alg =
                  ({ s with frames := fr', clock_hand := h' }, .ok v) := by
                simp [selectVictimPage, hemp, hfifo, hlru, hclk, clockReplacement, hca]
              rw [hsel]
              refine ⟨?_, rfl, rfl, rfl, rfl, rfl, rfl, rfl, ?_, ?_⟩
              · intro i
                exact (hps i).1
              · refine vminv_transfer s _ rfl (fun i => (hps i).1) rfl rfl rfl
                  (fun i => rfl) rfl ?_ h
                exact Or.inr (hrange hn hhand).2
              · intro _
                exact ⟨v, rfl, (hrange hn hhand).1⟩
        · have hsel : selectVictimPage s alg = (s, .ok 0) := by
            simp [selectVictimPage, hemp, hfifo, hlru, hclk]
          rw [hsel]
          refine ⟨fun i => rfl, rfl, rfl, rfl, rfl, rfl, rfl, rfl, h, ?_⟩
          intro hn
          exact ⟨0, rfl, hn⟩

theorem loadFreeFrame_fields (s : VMState) (pid pn : Int) (npage : Page)
    (f : Nat) (rest : List Nat) (pr : Process) (hpr : s.processes pid = some pr) :
    (∀ j, (loadFreeFrame s pid pn npage f rest).frames j =
      if j = f then
        { page := some npage, load_time := s.current_time,
          last_access_time := s.current_time,
          reference_bit := false, dirty_bit := false }
      else s.frames j) ∧
    (∀ q, (loadFreeFrame s pid pn npage f rest).processes q =
      if q = pid then
        some { pr with page_table := fun j => if j = pn then some f else pr.page_table j }
      else s.processes q) ∧
    (loadFreeFrame s pid pn npage f rest).physical_frames = s.physical_frames ∧
    (loadFreeFrame s pid pn npage f rest).free_frames = rest ∧
    (loadFreeFrame s pid pn npage f rest).free_list = s.free_list.erase f ∧
    (∀ j, (loadFreeFrame s pid pn npage f rest).allocation_bitmap j =
      if j = f then true else s.allocation_bitmap j) ∧
    (loadFreeFrame s pid pn npage f rest).fifo_queue = s.fifo_queue ++ [f] ∧
    (loadFreeFrame s pid pn npage f rest).clock_hand = s.clock_hand ∧
    (loadFreeFrame s pid pn npage f rest).current_time = s.current_time ∧
    (loadFreeFrame s pid pn npage f rest).page_size = s.page_size := by
  refine ⟨fun j => ?_, fun q => ?_, ?_, ?_, ?_, fun j => ?_, ?_, ?_, ?_, ?_⟩ <;>
    simp [loadFreeFrame, VMState.setFrame, setPTEntry, VMState.setProcess, hpr]

theorem loadFree_inv (s : VMState) (h : VMInv s) (pid pn : Int) (pr : Process)
    (hpr : s.processes pid = some pr) (h0 : 0 ≤ pn) (h1 : pn < pr.pages)
    (hnone : pr.page_table pn = none)
    (npage : Page) (hnpid : npage.process_id = pid) (hnpn : npage.page_number = pn)
    (f : Nat) (rest : List Nat) (hfree : s.free_frames = f :: rest) :
    VMInv (loadFreeFrame s pid pn npage f rest) := by
  obtain ⟨hF, hP, hN, hFF, hFL, hB, hQ, hH, hT, hS⟩ :=
    loadFreeFrame_fields s pid pn npage f rest pr hpr
  have hffacts : f < s.physical_frames ∧ (s.frames f).page = none :=
    (h.freeFramesMem f).mp (by rw [hfree]; exact List.mem_cons_self f rest)
  have hfnotin : f ∉ rest := by
    have := h.freeFramesNodup
    rw [hfree] at this
    exact (List.nodup_cons.mp this).1
  have hrestnd : rest.Nodup := by
    have := h.freeFramesNodup
    rw [hfree] at this
    exact (List.nodup_cons.mp this).2
  -- no frame holds a page of (pid, pn): the entry is absent
  have hnoframe : ∀ i, i < s.physical_frames → ∀ p, (s.frames i).page = some p →
      ¬(p.process_id = pid ∧ p.page_number = pn) := by
    intro i hi p hpg ⟨e1, e2⟩
    obtain ⟨pr', hpr', _, _, htab⟩ := h.bij1 i hi p hpg
    rw [e1, hpr] at hpr'
    cases hpr'
    rw [e2, hnone] at htab
    cases htab
  -- no entry points at the free frame f
  have hnoentry : ∀ q prq k, s.processes q = some prq → prq.page_table k ≠ some f := by
    intro q prq k hq hk
    obtain ⟨_, _, _, p, hpg, _, _⟩ := h.bij2 q prq hq k f hk
    rw [hffacts.2] at hpg
    cases hpg
  refine ⟨?_, ?_, ?_, ?_, ?_, ?_, ?_, ?_, ?_, ?_⟩
  · -- bij1
    intro i hi p hpg
    rw [hN] at hi
    rw [hF i] at hpg
    by_cases hif : i = f
    · rw [if_pos hif] at hpg
      simp only at hpg
      cases hpg
      rw [hP npage.process_id, hnpid, if_pos rfl]
      refine ⟨_, rfl, ?_, ?_, ?_⟩
      · rw [hnpn]; exact h0
      · rw [hnpn]; exact h1
      · rw [hnpn]
        simp [hif]
    · rw [if_neg hif] at hpg
      obtain ⟨pr', hpr', g0, g1, g2⟩ := h.bij1 i hi p hpg
      rw [hP p.process_id]
      by_cases hq : p.process_id = pid
      · rw [if_pos hq]
        rw [hq, hpr] at hpr'
        cases hpr'
        refine ⟨_, rfl, g0, g1, ?_⟩
        have hkp : p.page_number ≠ pn := by
          intro he
          exact hnoframe i hi p hpg ⟨hq, he⟩
        simp only [if_neg hkp]
        exact g2
      · rw [if_neg hq]
        exact ⟨pr', hpr', g0, g1, g2⟩
  · -- bij2
    intro q prq hq k i hk
    rw [hP q] at hq
    rw [hN]
    by_cases hqp : q = pid
    · rw [if_pos hqp] at hq
      cases hq
      simp only at hk
      by_cases hkpn : k = pn
      · rw [if_pos hkpn] at hk
        cases hk
        refine ⟨hkpn ▸ h0, hkpn ▸ h1, hffacts.1, npage, ?_, ?_, ?_⟩
        · rw [hF f]; simp
        · rw [hnpid, hqp]
        · rw [hnpn, hkpn]
      · rw [if_neg hkpn] at hk
        obtain ⟨g0, g1, g2, p, g3, g4, g5⟩ := h.bij2 q pr (hqp ▸ hpr) k i hk
        refine ⟨g0, g1, g2, p, ?_, g4, g5⟩
        rw [hF i]
        have hif : i ≠ f := by
          intro he
          rw [he, hffacts.2] at g3
          cases g3
        rw [if_neg hif]
        exact g3
    · rw [if_neg hqp] at hq
      obtain ⟨g0, g1, g2, p, g3, g4, g5⟩ := h.bij2 q prq hq k i hk
      refine ⟨g0, g1, g2, p, ?_, g4, g5⟩
      rw [hF i]
      have hif : i ≠ f := by
        intro he
        rw [he, hffacts.2] at g3
        cases g3
      rw [if_neg hif]
      exact g3
  · -- freeListMem
    intro i
    rw [hFL, hN, hF i]
    rw [h.freeListNodup.mem_erase_iff]
    constructor
    · rintro ⟨hne, hmem⟩
      obtain ⟨g1, g2⟩ := (h.freeListMem i).mp hmem
      rw [if_neg hne]
      exact ⟨g1, g2⟩
    · rintro ⟨g1, g2⟩
      by_cases hif : i = f
      · rw [if_pos hif] at g2
        simp at g2
      · rw [if_neg hif] at g2
        exact ⟨hif, (h.freeListMem i).mpr ⟨g1, g2⟩⟩
  · -- freeFramesMem
    intro i
    rw [hFF, hN, hF i]
    constructor
    · intro hmem
      have hif : i ≠ f := fun he => hfnotin (he ▸ hmem)
      obtain ⟨g1, g2⟩ := (h.freeFramesMem i).mp
        (by rw [hfree]; exact List.mem_cons_of_mem f hmem)
      rw [if_neg hif]
      exact ⟨g1, g2⟩
    · rintro ⟨g1, g2⟩
      by_cases hif : i = f
      · rw [if_pos hif] at g2
        simp at g2
      · rw [if_neg hif] at g2
        have := (h.freeFramesMem i).mpr ⟨g1, g2⟩
        rw [hfree] at this
        rcases List.mem_cons.mp this with he | hm
        · exact absurd he hif
        · exact hm
  · rw [hFL]
    exact h.freeListNodup.erase f
  · rw [hFF]
    exact hrestnd
  · -- bitmapOk
    intro i hi
    rw [hN] at hi
    rw [hB i, hF i]
    by_cases hif : i = f
    · rw [if_pos hif, if_pos hif]
      rfl
    · rw [if_neg hif, if_neg hif]
      exact h.bitmapOk i hi
  · -- fifoBound
    intro x hx
    rw [hQ] at hx
    rw [hN]
    rcases List.mem_append.mp hx with hm | hm
    · exact h.fifoBound x hm
    · rw [List.mem_singleton.mp hm]
      exact hffacts.1
  · -- fifoCover
    intro i hi hsome
    rw [hN] at hi
    rw [hQ]
    by_cases hif : i = f
    · rw [hif]
      exact List.mem_append.mpr (Or.inr (List.mem_singleton.mpr rfl))
    · rw [hF i, if_neg hif] at hsome
      exact List.mem_append.mpr (Or.inl (h.fifoCover i hi hsome))
  · rw [hN, hH]
    exact h.handOk

theorem setPTEntry_time (s : VMState) (pid k : Int) (v : Option Nat) :
    (setPTEntry s pid k v).current_time = s.current_time := by
  unfold setPTEntry
  cases s.processes pid <;> rfl

theorem replace_inv (s : VMState) (h : VMInv s) (pid pn : Int) (pr : Process)
    (hpr : s.processes pid = some pr) (h0 : 0 ≤ pn) (h1 : pn < pr.pages)
    (hnone : pr.page_table pn = none)
    (npage : Page) (hnpid : npage.process_id = pid) (hnpn : npage.page_number = pn)
    (v : Nat) (hv : v < s.physical_frames)
    (p0 : Page) (hp0 : (s.frames v).page = some p0) :
    VMInv (replaceVictim s pid pn npage v) := by
  obtain ⟨opr, hopr, hob0, hob1, hotab⟩ := h.bij1 v hv p0 hp0
  have hfin : replaceVictim s pid pn npage v =
      setPTEntry ((setPTEntry s p0.process_id p0.page_number none).setFrame v
        { page := some npage, load_time := s.current_time,
          last_access_time := s.current_time, reference_bit := false,
          dirty_bit := false }) pid pn (some v) := by
    unfold replaceVictim
    simp only [hp0, setPTEntry_time]
  rw [hfin]
  set NF : Frame :=
    { page := some npage, load_time := s.current_time,
      last_access_time := s.current_time, reference_bit := false,
      dirty_bit := false } with hNF
  set sA := setPTEntry s p0.process_id p0.page_number none with hsA
  set sB := sA.setFrame v NF with hsB
  -- processes of the intermediate state
  have hAproc : sA.processes = fun q => if q = p0.process_id then
      some { opr with page_table :=
        fun j => if j = p0.page_number then none else opr.page_table j }
    else s.processes q := setPTEntry_processes s p0.process_id p0.page_number none opr hopr
  have hBproc : sB.processes = sA.processes := rfl
  have hBframes : ∀ j, sB.frames j = if j = v then NF else s.frames j := by
    intro j
    rw [hsB, VMState.setFrame]
    simp only
    rw [hsA]
    rcases (setPTEntry_fields s p0.process_id p0.page_number none) with ⟨hfr, _⟩
    rw [hfr]
  -- the record stored under pid after the detach step, with a unified
  -- description of its page table
  have hexB : ∃ prB, sB.processes pid = some prB ∧ prB.pages = pr.pages ∧
      ∀ k, prB.page_table k =
        if pid = p0.process_id ∧ k = p0.page_number then none
        else pr.page_table k := by
    rw [hBproc, hAproc]
    by_cases hsame : pid = p0.process_id
    · have hoprpr : opr = pr := by
        rw [← hsame, hpr] at hopr
        cases hopr
        rfl
      refine ⟨{ opr with page_table :=
          fun j => if j = p0.page_number then none else opr.page_table j }, ?_, ?_, ?_⟩
      · simp [hsame]
      · show opr.pages = pr.pages
        rw [hoprpr]
      · intro k
        show (if k = p0.page_number then none else opr.page_table k) = _
        rw [hoprpr]
        by_cases hk : k = p0.page_number
        · rw [if_pos hk, if_pos ⟨hsame, hk⟩]
        · rw [if_neg hk, if_neg (fun hc => hk hc.2)]
    · refine ⟨pr, ?_, rfl, ?_⟩
      · simp [hsame, hpr]
      · intro k
        rw [if_neg (fun hc => hsame hc.1)]
  obtain ⟨prB, hprB, hpgB, htabB⟩ := hexB
  have hPfin : (setPTEntry sB pid pn (some v)).processes = fun q => if q = pid then
      some { prB with page_table := fun j => if j = pn then some v else prB.page_table j }
    else sB.processes q := setPTEntry_processes sB pid pn (some v) prB hprB
  have hFfin : ∀ j, (setPTEntry sB pid pn (some v)).frames j =
      if j = v then NF else s.frames j := by
    intro j
    rcases (setPTEntry_fields sB pid pn (some v)) with ⟨hfr, _⟩
    rw [hfr]
    exact hBframes j
  obtain ⟨_, hN2, hFF2, hFL2, hBM2, hQ2, hH2, _, _⟩ := setPTEntry_fields sB pid pn (some v)
  have hNB : sB.physical_frames = s.physical_frames := by
    rw [hsB, VMState.setFrame]
    simp only
    rw [hsA]
    exact (setPTEntry_fields s p0.process_id p0.page_number none).2.1
  have hFFB : sB.free_frames = s.free_frames := by
    rw [hsB, VMState.setFrame]
    simp only
    rw [hsA]
    exact (setPTEntry_fields s p0.process_id p0.page_number none).2.2.1
  have hFLB : sB.free_list = s.free_list := by
    rw [hsB, VMState.setFrame]
    simp only
    rw [hsA]
    exact (setPTEntry_fields s p0.process_id p0.page_number none).2.2.2.1
  have hBMB : sB.allocation_bitmap = s.allocation_bitmap := by
    rw [hsB, VMState.setFrame]
    simp only
    rw [hsA]
    exact (setPTEntry_fields s p0.process_id p0.page_number none).2.2.2.2.1
  have hQB : sB.fifo_queue = s.fifo_queue := by
    rw [hsB, VMState.setFrame]
    simp only
    rw [hsA]
    exact (setPTEntry_fields s p0.process_id p0.page_number none).2.2.2.2.2.1
  have hHB : sB.clock_hand = s.clock_hand := by
    rw [hsB, VMState.setFrame]
    simp only
    rw [hsA]
    exact (setPTEntry_fields s p0.process_id p0.page_number none).2.2.2.2.2.2.1
  -- pages of the final pid record
  have hpagesF : ∀ k, (if k = pn then some v else prB.page_table k) = some v →
      k = pn ∨ (¬(pid = p0.process_id ∧ k = p0.page_number) ∧ pr.page_table k = some v) := by
    intro k hk
    by_cases hkpn : k = pn
    · exact Or.inl hkpn
    · rw [if_neg hkpn, htabB k] at hk
      by_cases hc : pid = p0.process_id ∧ k = p0.page_number
      · rw [if_pos hc] at hk
        cases hk
      · rw [if_neg hc] at hk
        exact Or.inr ⟨hc, hk⟩
  -- no frame holds a page of (pid, pn)
  have hnoframe : ∀ i, i < s.physical_frames → ∀ p, (s.frames i).page = some p →
      ¬(p.process_id = pid ∧ p.page_number = pn) := by
    intro i hi p hpg ⟨e1, e2⟩
    obtain ⟨pr', hpr', _, _, htab⟩ := h.bij1 i hi p hpg
    rw [e1, hpr] at hpr'
    cases hpr'
    rw [e2, hnone] at htab
    cases htab
  refine ⟨?_, ?_, ?_, ?_, ?_, ?_, ?_, ?_, ?_, ?_⟩
  · -- bij1
    intro i hi p hpg
    rw [hN2, hNB] at hi
    rw [hFfin i] at hpg
    by_cases hivv : i = v
    · rw [if_pos hivv] at hpg
      rw [hNF] at hpg
      simp only at hpg
      cases hpg
      rw [hPfin]
      simp only [hnpid, if_pos rfl]
      refine ⟨_, rfl, hnpn ▸ h0, ?_, ?_⟩
      · simp only
        rw [hpgB]
        exact hnpn ▸ h1
      · simp only
        rw [hnpn, if_pos rfl, hivv]
    · rw [if_neg hivv] at hpg
      obtain ⟨pri, hpri, g0, g1, g2⟩ := h.bij1 i hi p hpg
      rw [hPfin]
      by_cases hq : p.process_id = pid
      · rw [hq, hpr] at hpri
        cases hpri
        simp only [hq, if_pos rfl]
        refine ⟨_, rfl, g0, by simp only; rw [hpgB]; exact g1, ?_⟩
        simp only
        have hppn : p.page_number ≠ pn := by
          intro he
          exact hnoframe i hi p hpg ⟨hq, he⟩
        rw [if_neg hppn, htabB]
        have hnc : ¬(pid = p0.process_id ∧ p.page_number = p0.page_number) := by
          rintro ⟨hc1, hc2⟩
          rw [← hc1, hpr] at hopr
          cases hopr
          rw [hc2] at g2
          rw [g2] at hotab
          cases hotab
          exact hivv rfl
        rw [if_neg hnc]
        exact g2
      · simp only [if_neg hq, hBproc, hAproc]
        by_cases hq0 : p.process_id = p0.process_id
        · rw [hq0, hopr] at hpri
          cases hpri
          rw [if_pos hq0]
          refine ⟨_, rfl, g0, g1, ?_⟩
          simp only
          have hppn0 : p.page_number ≠ p0.page_number := by
            intro he
            rw [he] at g2
            rw [g2] at hotab
            cases hotab
            exact hivv rfl
          rw [if_neg hppn0]
          exact g2
        · rw [if_neg hq0]
          exact ⟨pri, hpri, g0, g1, g2⟩
  · -- bij2
    intro q prq hq k i hk
    simp only [hPfin] at hq
    rw [hN2, hNB]
    by_cases hqp : q = pid
    · rw [if_pos hqp] at hq
      cases hq
      simp only at hk
      by_cases hkpn : k = pn
      · rw [if_pos hkpn] at hk
        cases hk
        refine ⟨hkpn ▸ h0, ?_, hv, npage, ?_, ?_, ?_⟩
        · simp only
          rw [hpgB]
          exact hkpn ▸ h1
        · rw [hFfin v, if_pos rfl, hNF]
        · rw [hnpid, hqp]
        · rw [hnpn, hkpn]
      · rw [if_neg hkpn, htabB] at hk
        by_cases hc : pid = p0.process_id ∧ k = p0.page_number
        · rw [if_pos hc] at hk
          cases hk
        · rw [if_neg hc] at hk
          obtain ⟨g0, g1, g2, p, g3, g4, g5⟩ := h.bij2 pid pr hpr k i hk
          have hiv : i ≠ v := by
            intro he
            rw [he, hp0] at g3
            cases g3
            exact hc ⟨hqp ▸ g4.symm, g5.symm⟩
          refine ⟨g0, ?_, g2, p, ?_, hqp ▸ g4, g5⟩
          · simp only
            rw [hpgB]
            exact g1
          · rw [hFfin i, if_neg hiv]
            exact g3
    · simp only [if_neg hqp, hBproc, hAproc] at hq
      by_cases hq0 : q = p0.process_id
      · rw [if_pos hq0] at hq
        cases hq
        simp only at hk
        by_cases hk0 : k = p0.page_number
        · rw [if_pos hk0] at hk
          cases hk
        · rw [if_neg hk0] at hk
          obtain ⟨g0, g1, g2, p, g3, g4, g5⟩ := h.bij2 q opr (hq0 ▸ hopr) k i hk
          have hiv : i ≠ v := by
            intro he
            rw [he, hp0] at g3
            cases g3
            exact hk0 g5.symm
          refine ⟨g0, g1, g2, p, ?_, g4, g5⟩
          rw [hFfin i, if_neg hiv]
          exact g3
      · rw [if_neg hq0] at hq
        obtain ⟨g0, g1, g2, p, g3, g4, g5⟩ := h.bij2 q prq hq k i hk
        have hiv : i ≠ v := by
          intro he
          rw [he, hp0] at g3
          cases g3
          exact hq0 g4.symm
        refine ⟨g0, g1, g2, p, ?_, g4, g5⟩
        rw [hFfin i, if_neg hiv]
        exact g3
  · -- freeListMem
    intro i
    rw [hFL2, hFLB, hN2, hNB, hFfin i]
    rw [h.freeListMem i]
    by_cases hiv : i = v
    · rw [if_pos hiv, hiv, hp0, hNF]
      simp
    · rw [if_neg hiv]
  · -- freeFramesMem
    intro i
    rw [hFF2, hFFB, hN2, hNB, hFfin i]
    rw [h.freeFramesMem i]
    by_cases hiv : i = v
    · rw [if_pos hiv, hiv, hp0, hNF]
      simp
    · rw [if_neg hiv]
  · rw [hFL2, hFLB]
    exact h.freeListNodup
  · rw [hFF2, hFFB]
    exact h.freeFramesNodup
  · -- bitmapOk
    intro i hi
    rw [hN2, hNB] at hi
    rw [hBM2, hBMB, hFfin i]
    by_cases hiv : i = v
    · rw [if_pos hiv, hiv]
      rw [h.bitmapOk v hv, hp0, hNF]
      rfl
    · rw [if_neg hiv]
      exact h.bitmapOk i hi
  · -- fifoBound
    intro x hx
    rw [hQ2, hQB] at hx
    rw [hN2, hNB]
    exact h.fifoBound x hx
  · -- fifoCover
    intro i hi hsome
    rw [hN2, hNB] at hi
    rw [hQ2, hQB]
    rw [hFfin i] at hsome
    by_cases hiv : i = v
    · rw [hiv]
      exact h.fifoCover v hv (by rw [hp0]; rfl)
    · rw [if_neg hiv] at hsome
      exact h.fifoCover i hi hsome
  · rw [hN2, hNB, hH2, hHB]
    exact h.handOk

theorem bumpAlgStat_processes (s : VMState) (alg : String) (f : Stats → Stats) :
    (bumpAlgStat s alg f).processes = s.processes :=
  (bumpAlgStat_fields s alg f).2.2.1

theorem bumpAlgStat_page_size (s : VMState) (alg : String) (f : Stats → Stats) :
    (bumpAlgStat s alg f).page_size = s.page_size :=
  (bumpAlgStat_fields s alg f).2.2.2.2.2.2.2.2.2

theorem bumpAlgStat_frames (s : VMState) (alg : String) (f : Stats → Stats) :
    (bumpAlgStat s alg f).frames = s.frames :=
  (bumpAlgStat_fields s alg f).1

theorem bumpAlgStat_physical (s : VMState) (alg : String) (f : Stats → Stats) :
    (bumpAlgStat s alg f).physical_frames = s.physical_frames :=
  (bumpAlgStat_fields s alg f).2.1

theorem bumpAlgStat_time (s : VMState) (alg : String) (f : Stats → Stats) :
    (bumpAlgStat s alg f).current_time = s.current_time :=
  (bumpAlgStat_fields s alg f).2.2.2.2.2.2.2.2.1

theorem bumpAlgStat_free_frames (s : VMState) (alg : String) (f : Stats → Stats) :
    (bumpAlgStat s alg f).free_frames = s.free_frames :=
  (bumpAlgStat_fields s alg f).2.2.2.1

theorem vminv_bumpAlgStat (s : VMState) (alg : String) (f : Stats → Stats)
    (h : VMInv s) : VMInv (bumpAlgStat s alg f) := by
  obtain ⟨h1, h2, h3, h4, h5, h6, h7, h8, h9, h10⟩ := bumpAlgStat_fields s alg f
  refine vminv_transfer s _ h2 (fun i => by rw [h1]) h3 h4 h5 (fun i => by rw [h6]) h7 ?_ h
  rw [h2, h8]
  exact h.handOk

theorem hitUpdate_fields (s : VMState) (fn : Nat) (w : Bool) :
    (∀ j, ((hitUpdate s fn w).frames j).page = (s.frames j).page) ∧
    (hitUpdate s fn w).processes = s.processes ∧
    (hitUpdate s fn w).physical_frames = s.physical_frames ∧
    (hitUpdate s fn w).free_frames = s.free_frames ∧
    (hitUpdate s fn w).free_list = s.free_list ∧
    (hitUpdate s fn w).allocation_bitmap = s.allocation_bitmap ∧
    (hitUpdate s fn w).fifo_queue = s.fifo_queue ∧
    (hitUpdate s fn w).clock_hand = s.clock_hand := by
  refine ⟨fun j => ?_, rfl, rfl, rfl, rfl, rfl, rfl, rfl⟩
  unfold hitUpdate VMState.setFrame
  simp only
  by_cases hj : j = fn
  · rw [if_pos hj]
    rw [hj]
  · rw [if_neg hj]

theorem vminv_hitUpdate (s : VMState) (fn : Nat) (w : Bool) (h : VMInv s) :
    VMInv (hitUpdate s fn w) := by
  obtain ⟨h1, h2, h3, h4, h5, h6, h7, h8⟩ := hitUpdate_fields s fn w
  refine vminv_transfer s _ h3 h1 h2 h4 h5 (fun i => by rw [h6]) h7 ?_ h
  rw [h3, h8]
  exact h.handOk

theorem handle_fault_inv (s : VMState) (h : VMInv s) (pid pn : Int) (pr : Process)
    (hpr : s.processes pid = some pr) (h0 : 0 ≤ pn) (h1 : pn < pr.pages)
    (hnone : pr.page_table pn = none) (alg : String) :
    VMInv (handle_page_fault s pid pn alg).1 ∧
    (0 < s.physical_frames →
      ∃ b m, (handle_page_fault s pid pn alg).2 = .ok (b, m)) := by
  cases hfree : s.free_frames with
  | cons f rest =>
      have hf : f < s.physical_frames :=
        ((h.freeFramesMem f).mp (by rw [hfree]; exact List.mem_cons_self f rest)).1
      have hres : handle_page_fault s pid pn alg =
          (loadFreeFrame s pid pn
            { page_number := pn, process_id := pid, data := s!"Data_{pid}_{pn}" } f rest,
           .ok (true, .faultLoadedFree pn pid f)) := by
        simp [handle_page_fault, hpr, hfree, hf]
      rw [hres]
      exact ⟨loadFree_inv s h pid pn pr hpr h0 h1 hnone _ rfl rfl f rest hfree,
        fun _ => ⟨true, _, rfl⟩⟩
  | nil =>
      obtain ⟨hsF, hsP, hsN, hsFF, hsFL, hsBM, hsT, hsS, hinv', hok⟩ :=
        select_inv s h alg hfree
      cases hsel2 : (selectVictimPage s alg).2 with
      | error e =>
          have hres : handle_page_fault s pid pn alg =
              ((selectVictimPage s alg).1, .error e) := by
            simp [handle_page_fault, hpr, hfree, hsel2]
          rw [hres]
          refine ⟨hinv', ?_⟩
          intro hnpos
          obtain ⟨v, hv, _⟩ := hok hnpos
          rw [hsel2] at hv
          cases hv
      | ok victim =>
          by_cases hvlt : victim < (selectVictimPage s alg).1.physical_frames
          · have hres : handle_page_fault s pid pn alg =
                (replaceVictim (selectVictimPage s alg).1 pid pn
                  { page_number := pn, process_id := pid, data := s!"Data_{pid}_{pn}" }
                  victim,
                 .ok (true, .faultReplaced victim pn pid)) := by
              simp [handle_page_fault, hpr, hfree, hsel2, hvlt]
            rw [hres]
            have hvlt' : victim < s.physical_frames := by rw [← hsN]; exact hvlt
            have hvocc : (((selectVictimPage s alg).1.frames victim).page).isSome = true := by
              rw [hsF victim]
              exact all_occupied_of_free_empty s h hfree victim hvlt'
            rcases hvp : ((selectVictimPage s alg).1.frames victim).page with _ | p0
            · rw [hvp] at hvocc; cases hvocc
            · refine ⟨replace_inv (selectVictimPage s alg).1 hinv' pid pn pr
                (by rw [hsP]; exact hpr) h0 h1 hnone _ rfl rfl victim hvlt p0 hvp,
                fun _ => ⟨true, _, rfl⟩⟩
          · have hres : handle_page_fault s pid pn alg =
                ((selectVictimPage s alg).1, .error .indexError) := by
              simp [handle_page_fault, hpr, hfree, hsel2, hvlt]
            rw [hres]
            refine ⟨hinv', ?_⟩
            intro hnpos
            obtain ⟨v, hv, hvn⟩ := hok hnpos
            rw [hsel2] at hv
            cases hv
            rw [← hsN] at hvn
            exact absurd hvn hvlt


theorem bumpAccess_fields (s : VMState) (alg : String) :
    (bumpAccess s alg).frames = s.frames ∧
    (bumpAccess s alg).physical_frames = s.physical_frames ∧
    (bumpAccess s alg).processes = s.processes ∧
    (bumpAccess s alg).free_frames = s.free_frames ∧
    (bumpAccess s alg).free_list = s.free_list ∧
    (bumpAccess s alg).allocation_bitmap = s.allocation_bitmap ∧
    (bumpAccess s alg).fifo_queue = s.fifo_queue ∧
    (bumpAccess s alg).clock_hand = s.clock_hand ∧
    (bumpAccess s alg).current_time = s.current_time + 1 ∧
    (bumpAccess s alg).page_size = s.page_size ∧
    (bumpAccess s alg).memory_accesses = s.memory_accesses + 1 ∧
    (bumpAccess s alg).page_faults = s.page_faults ∧
    (bumpAccess s alg).hit_count = s.hit_count := by
  unfold bumpAccess bumpAlgStat
  split
  · exact ⟨rfl, rfl, rfl, rfl, rfl, rfl, rfl, rfl, rfl, rfl, rfl, rfl, rfl⟩
  · split
    · exact ⟨rfl, rfl, rfl, rfl, rfl, rfl, rfl, rfl, rfl, rfl, rfl, rfl, rfl⟩
    · split
      · exact ⟨rfl, rfl, rfl, rfl, rfl, rfl, rfl, rfl, rfl, rfl, rfl, rfl, rfl⟩
      · exact ⟨rfl, rfl, rfl, rfl, rfl, rfl, rfl, rfl, rfl, rfl, rfl, rfl, rfl⟩

theorem bumpHit_fields (s : VMState) (alg : String) :
    (bumpHit s alg).frames = s.frames ∧
    (bumpHit s alg).physical_frames = s.physical_frames ∧
    (bumpHit s alg).processes = s.processes ∧
    (bumpHit s alg).free_frames = s.free_frames ∧
    (bumpHit s alg).free_list = s.free_list ∧
    (bumpHit s alg).allocation_bitmap = s.allocation_bitmap ∧
    (bumpHit s alg).fifo_queue = s.fifo_queue ∧
    (bumpHit s alg).clock_hand = s.clock_hand ∧
    (bumpHit s alg).current_time = s.current_time ∧
    (bumpHit s alg).page_size = s.page_size ∧
    (bumpHit s alg).memory_accesses = s.memory_accesses ∧
    (bumpHit s alg).page_faults = s.page_faults ∧
    (bumpHit s alg).hit_count = s.hit_count + 1 := by
  unfold bumpHit bumpAlgStat
  split
  · exact ⟨rfl, rfl, rfl, rfl, rfl, rfl, rfl, rfl, rfl, rfl, rfl, rfl, rfl⟩
  · split
    · exact ⟨rfl, rfl, rfl, rfl, rfl, rfl, rfl, rfl, rfl, rfl, rfl, rfl, rfl⟩
    · split
      · exact ⟨rfl, rfl, rfl, rfl, rfl, rfl, rfl, rfl, rfl, rfl, rfl, rfl, rfl⟩
      · exact ⟨rfl, rfl, rfl, rfl, rfl, rfl, rfl, rfl, rfl, rfl, rfl, rfl, rfl⟩

theorem bumpFault_fields (s : VMState) (alg : String) :
    (bumpFault s alg).frames = s.frames ∧
    (bumpFault s alg).physical_frames = s.physical_frames ∧
    (bumpFault s alg).processes = s.processes ∧
    (bumpFault s alg).free_frames = s.free_frames ∧
    (bumpFault s alg).free_list = s.free_list ∧
    (bumpFault s alg).allocation_bitmap = s.allocation_bitmap ∧
    (bumpFault s alg).fifo_queue = s.fifo_queue ∧
    (bumpFault s alg).clock_hand = s.clock_hand ∧
    (bumpFault s alg).current_time = s.current_time ∧
    (bumpFault s alg).page_size = s.page_size ∧
    (bumpFault s alg).memory_accesses = s.memory_accesses ∧
    (bumpFault s alg).page_faults = s.page_faults + 1 ∧
    (bumpFault s alg).hit_count = s.hit_count := by
  unfold bumpFault bumpAlgStat
  split
  · exact ⟨rfl, rfl, rfl, rfl, rfl, rfl, rfl, rfl, rfl, rfl, rfl, rfl, rfl⟩
  · split
    · exact ⟨rfl, rfl, rfl, rfl, rfl, rfl, rfl, rfl, rfl, rfl, rfl, rfl, rfl⟩
    · split
      · exact ⟨rfl, rfl, rfl, rfl, rfl, rfl, rfl, rfl, rfl, rfl, rfl, rfl, rfl⟩
      · exact ⟨rfl, rfl, rfl, rfl, rfl, rfl, rfl, rfl, rfl, rfl, rfl, rfl, rfl⟩

theorem vminv_bumpAccess (s : VMState) (alg : String) (h : VMInv s) :
    VMInv (bumpAccess s alg) := by
  obtain ⟨h1, h2, h3, h4, h5, h6, h7, h8, _⟩ := bumpAccess_fields s alg
  refine vminv_transfer s _ h2 (fun i => by rw [h1]) h3 h4 h5 (fun i => by rw [h6])
    h7 ?_ h
  rw [h2, h8]
  exact h.handOk

theorem vminv_bumpHit (s : VMState) (alg : String) (h : VMInv s) :
    VMInv (bumpHit s alg) := by
  obtain ⟨h1, h2, h3, h4, h5, h6, h7, h8, _⟩ := bumpHit_fields s alg
  refine vminv_transfer s _ h2 (fun i => by rw [h1]) h3 h4 h5 (fun i => by rw [h6])
    h7 ?_ h
  rw [h2, h8]
  exact h.handOk

theorem vminv_bumpFault (s : VMState) (alg : String) (h : VMInv s) :
    VMInv (bumpFault s alg) := by
  obtain ⟨h1, h2, h3, h4, h5, h6, h7, h8, _⟩ := bumpFault_fields s alg
  refine vminv_transfer s _ h2 (fun i => by rw [h1]) h3 h4 h5 (fun i => by rw [h6])
    h7 ?_ h
  rw [h2, h8]
  exact h.handOk

theorem access_inv_ok (s : VMState) (h : VMInv s) (pid va : Int) (w : Bool)
    (alg : String) :
    VMInv (access_memory s pid va w alg).1 ∧
    (0 < s.physical_frames → 0 < s.page_size → 0 ≤ va →
      ∃ b m, (access_memory s pid va w alg).2 = .ok (b, m)) := by
  have hinvb : VMInv (bumpAccess s alg) := vminv_bumpAccess s alg h
  have hbP : (bumpAccess s alg).processes = s.processes :=
    (bumpAccess_fields s alg).2.2.1
  have hbS : (bumpAccess s alg).page_size = s.page_size :=
    (bumpAccess_fields s alg).2.2.2.2.2.2.2.2.2.1
  have hbN : (bumpAccess s alg).physical_frames = s.physical_frames :=
    (bumpAccess_fields s alg).2.1
  cases hpp : s.processes pid with
  | none =>
      have hacc : access_memory s pid va w alg =
          (bumpAccess s alg, .ok (false, .processNotExist pid)) := by
        simp [access_memory, hbP, hpp]
      rw [hacc]
      exact ⟨hinvb, fun _ _ _ => ⟨false, _, rfl⟩⟩
  | some process =>
      by_cases hps0 : s.page_size = 0
      · have hacc : access_memory s pid va w alg =
            (bumpAccess s alg, .error .zeroDivision) := by
          simp [access_memory, hbP, hbS, hpp, hps0]
        rw [hacc]
        refine ⟨hinvb, ?_⟩
        intro _ hps _
        omega
      · by_cases hbound : process.pages ≤ Int.fdiv va s.page_size
        · have hacc : access_memory s pid va w alg =
              (bumpAccess s alg, .ok (false, .outOfBounds va pid)) := by
            simp [access_memory, hbP, hbS, hpp, hps0, hbound]
          rw [hacc]
          exact ⟨hinvb, fun _ _ _ => ⟨false, _, rfl⟩⟩
        · cases hlk : ptLookup process (Int.fdiv va s.page_size) with
          | error e =>
              have hacc : access_memory s pid va w alg =
                  (bumpAccess s alg, .error e) := by
                simp [access_memory, hbP, hbS, hpp, hps0, hbound, hlk]
              rw [hacc]
              refine ⟨hinvb, ?_⟩
              intro _ hps hva
              have hfd : 0 ≤ Int.fdiv va s.page_size :=
                Int.fdiv_nonneg hva (Int.le_of_lt hps)
              have hlt : Int.fdiv va s.page_size < process.pages := Int.not_le.mp hbound
              unfold ptLookup at hlk
              rw [if_pos ⟨hfd, hlt⟩] at hlk
              cases hlk
          | ok olk =>
              have hdomtab : (0 ≤ Int.fdiv va s.page_size ∧
                  Int.fdiv va s.page_size < process.pages) ∧
                  process.page_table (Int.fdiv va s.page_size) = olk := by
                unfold ptLookup at hlk
                by_cases hdc : 0 ≤ Int.fdiv va s.page_size ∧
                    Int.fdiv va s.page_size < process.pages
                · rw [if_pos hdc] at hlk
                  cases hlk
                  exact ⟨hdc, rfl⟩
                · rw [if_neg hdc] at hlk
                  cases hlk
              cases olk with
              | some fn =>
                  have hfn : fn < s.physical_frames :=
                    (h.bij2 pid process hpp _ fn hdomtab.2).2.2.1
                  have hfn' : fn < (bumpHit (bumpAccess s alg) alg).physical_frames := by
                    rw [(bumpHit_fields (bumpAccess s alg) alg).2.1, hbN]
                    exact hfn
                  have hacc : access_memory s pid va w alg =
                      (hitUpdate (bumpHit (bumpAccess s alg) alg) fn w,
                       .ok (true, .pageHit va fn)) := by
                    simp [access_memory, hbP, hbS, hpp, hps0, hbound, hlk, hfn']
                  rw [hacc]
                  exact ⟨vminv_hitUpdate _ fn w (vminv_bumpHit _ alg hinvb),
                    fun _ _ _ => ⟨true, _, rfl⟩⟩
              | none =>
                  have hacc : access_memory s pid va w alg =
                      handle_page_fault (bumpFault (bumpAccess s alg) alg) pid
                        (Int.fdiv va s.page_size) alg := by
                    simp [access_memory, hbP, hbS, hpp, hps0, hbound, hlk]
                  have hinv3 : VMInv (bumpFault (bumpAccess s alg) alg) :=
                    vminv_bumpFault _ alg hinvb
                  have hp3 : (bumpFault (bumpAccess s alg) alg).processes pid =
                      some process := by
                    rw [(bumpFault_fields (bumpAccess s alg) alg).2.2.1, hbP]
                    exact hpp
                  have hn3 : (bumpFault (bumpAccess s alg) alg).physical_frames =
                      s.physical_frames := by
                    rw [(bumpFault_fields (bumpAccess s alg) alg).2.1, hbN]
                  obtain ⟨hi3, ho3⟩ := handle_fault_inv _ hinv3 pid
                    (Int.fdiv va s.page_size) process hp3 hdomtab.1.1 hdomtab.1.2
                    hdomtab.2 alg
                  rw [hacc]
                  refine ⟨hi3, ?_⟩
                  intro hn _ _
                  exact ho3 (by rw [hn3]; exact hn)

theorem reachable_vminv (s : VMState) (h : Reachable s) : VMInv s := by
  induction h with
  | init n ps => exact vminv_init n ps
  | step s op _ ih =>
      cases op with
      | create pid np => exact vminv_create s pid np ih
      | terminate pid => exact vminv_terminate s pid ih
      | access pid va w alg => exact (access_inv_ok s ih pid va w alg).1

theorem ptLookup_ok_some (pr : Process) (k : Int) (i : Nat)
    (h : ptLookup pr k = .ok (some i)) :
    0 ≤ k ∧ k < pr.pages ∧ pr.page_table k = some i := by
  unfold ptLookup at h
  by_cases hdc : 0 ≤ k ∧ k < pr.pages
  · rw [if_pos hdc] at h
    injection h with h2
    exact ⟨hdc.1, hdc.2, h2⟩
  · rw [if_neg hdc] at h
    cases h

/-- C1: in every state reachable by any sequence of `create_process`,
`terminate_process` and `access_memory` calls, every occupied frame holding a
page `P` of process `X` has exactly one present page-table entry equal to its
index, namely `processes[X].page_table[P.page_number]`, and conversely every
present page-table entry points to a frame occupied by exactly that
(process, page number) page. -/
theorem c1_bijection_invariant (s : VMState) (h : Reachable s) :
    BijectionConsistent s := by
  have hv := reachable_vminv s h
  constructor
  · intro i hi p hpg
    obtain ⟨pr, hpr, g0, g1, g2⟩ := hv.bij1 i hi p hpg
    constructor
    · refine ⟨pr, hpr, ?_⟩
      unfold ptLookup
      rw [if_pos ⟨g0, g1⟩, g2]
    · intro pid pr' k hpr' hlk
      obtain ⟨_, _, htab⟩ := ptLookup_ok_some pr' k i hlk
      obtain ⟨_, _, _, q, hq1, hq2, hq3⟩ := hv.bij2 pid pr' hpr' k i htab
      rw [hpg] at hq1
      cases hq1
      exact ⟨hq2.symm, hq3.symm⟩
  · intro pid pr k i hpr hlk
    obtain ⟨_, _, htab⟩ := ptLookup_ok_some pr k i hlk
    obtain ⟨_, _, g2, q, hq1, hq2, hq3⟩ := hv.bij2 pid pr hpr k i htab
    exact ⟨g2, q, hq1, hq2, hq3⟩

theorem c1_bijection_invariant_witness :
    BijectionConsistent
      (applyOp (applyOp (mkSystem 2 64) (.create 1 1)) (.access 1 0 false "FIFO")) :=
  c1_bijection_invariant _
    (Reachable.step _ _ (Reachable.step _ _ (Reachable.init 2 64)))

/-- C3: in every reachable state, `allocation_bitmap[i]` is false exactly when
frame `i` is in the free list, and no free-listed frame is occupied. -/
theorem c3_free_space_invariant (s : VMState) (h : Reachable s) :
    FreeSpaceConsistent s := by
  have hv := reachable_vminv s h
  intro i hi
  constructor
  · rw [hv.bitmapOk i hi]
    constructor
    · intro hb
      refine (hv.freeListMem i).mpr ⟨hi, ?_⟩
      cases hpg : (s.frames i).page with
      | none => rfl
      | some p =>
          rw [hpg] at hb
          cases hb
    · intro hm
      rw [((hv.freeListMem i).mp hm).2]
      rfl
  · intro hm
    exact ((hv.freeListMem i).mp hm).2

theorem c3_free_space_invariant_witness :
    FreeSpaceConsistent
      (applyOp (applyOp (mkSystem 2 64) (.create 1 1)) (.access 1 0 false "FIFO")) :=
  c3_free_space_invariant _
    (Reachable.step _ _ (Reachable.step _ _ (Reachable.init 2 64)))

theorem bumpAccess_processes (s : VMState) (alg : String) :
    (bumpAccess s alg).processes = s.processes :=
  (bumpAccess_fields s alg).2.2.1

theorem bumpAccess_page_size (s : VMState) (alg : String) :
    (bumpAccess s alg).page_size = s.page_size :=
  (bumpAccess_fields s alg).2.2.2.2.2.2.2.2.2.1

/-- C2, counterexample: on the original claim's domain (all integer virtual
addresses), a negative address slips past the bounds check (its floor-divided
page number is negative, hence below `pages`) and the page-table lookup then
raises an uncontrolled `KeyError`, in both `access_memory` and
`translate_address`. -/
theorem c2_counterexample :
    (access_memory (runOps (mkSystem 8 4096) [.create 1 1]) 1 (-1) false "FIFO").2 =
      .error .keyError ∧
    translate_address (runOps (mkSystem 8 4096) [.create 1 1]) 1 (-1) =
      .error .keyError := by
  constructor <;> decide

/-- C2, amended: in every reachable state of a system with at least one
physical frame and a positive page size, `access_memory` and
`translate_address` return a structured (success flag, message[, payload])
result — never an exception — for every process id and every non-negative
virtual address. -/
theorem c2_amended_no_exception (s : VMState) (h : Reachable s)
    (hn : 0 < s.physical_frames) (hps : 0 < s.page_size)
    (pid va : Int) (w : Bool) (alg : String) (hva : 0 ≤ va) :
    (∃ b m, (access_memory s pid va w alg).2 = .ok (b, m)) ∧
    (∃ b m pa, translate_address s pid va = .ok (b, m, pa)) := by
  constructor
  · exact (access_inv_ok s (reachable_vminv s h) pid va w alg).2 hn hps hva
  · cases hpp : s.processes pid with
    | none =>
        have ht : translate_address s pid va = .ok (false, .processNotExist pid, -1) := by
          simp [translate_address, hpp]
        exact ⟨_, _, _, ht⟩
    | some process =>
        have hps0 : ¬ s.page_size = 0 := by omega
        by_cases hbound : process.pages ≤ Int.fdiv va s.page_size
        · have ht : translate_address s pid va = .ok (false, .outOfBoundsT va, -1) := by
            simp [translate_address, hpp, hps0, hbound]
          exact ⟨_, _, _, ht⟩
        · have hfd : 0 ≤ Int.fdiv va s.page_size :=
            Int.fdiv_nonneg hva (Int.le_of_lt hps)
          have hlko : ptLookup process (Int.fdiv va s.page_size) =
              .ok (process.page_table (Int.fdiv va s.page_size)) := by
            unfold ptLookup
            rw [if_pos ⟨hfd, Int.not_le.mp hbound⟩]
          cases htb : process.page_table (Int.fdiv va s.page_size) with
          | none =>
              have ht : translate_address s pid va =
                  .ok (false, .pageNotResident (Int.fdiv va s.page_size), -1) := by
                simp [translate_address, hpp, hps0, hbound, hlko, htb]
              exact ⟨_, _, _, ht⟩
          | some fn =>
              have ht : translate_address s pid va =
                  .ok (true, .translated va
                    ((fn : Int) * s.page_size + Int.fmod va s.page_size) fn
                    (Int.fmod va s.page_size),
                   (fn : Int) * s.page_size + Int.fmod va s.page_size) := by
                simp [translate_address, hpp, hps0, hbound, hlko, htb]
              exact ⟨_, _, _, ht⟩

theorem c2_amended_no_exception_witness :
    (∃ b m, (access_memory (applyOp (mkSystem 2 4096) (.create 1 1)) 1 0 false
      "FIFO").2 = .ok (b, m)) ∧
    (∃ b m pa, translate_address (applyOp (mkSystem 2 4096) (.create 1 1)) 1 0 =
      .ok (b, m, pa)) :=
  c2_amended_no_exception _ (Reachable.step _ _ (Reachable.init 2 4096))
    (by decide) (by decide) 1 0 false "FIFO" (by decide)

/-- C4: evaluating the code on a concrete run.  After
`create_process(1, 1)`, `access_memory(1, 0)` (loading page 0 into frame 0 and
enqueuing frame 0), and `terminate_process(1)`, frame 0 is freed (no page, on
the free list) yet the FIFO queue still contains frame 0: the queue filter in
`terminate_process` runs after `frame.page` has been cleared, so the predicate
`f.page is None or f.page.process_id != process_id` keeps every frame the call
just freed, and the claimed removal never happens. -/
theorem c4_freed_frame_stays_in_fifo_queue :
    (runOps (mkSystem 2 4096)
      [.create 1 1, .access 1 0 false "FIFO", .terminate 1]).fifo_queue = [0] ∧
    ((runOps (mkSystem 2 4096)
      [.create 1 1, .access 1 0 false "FIFO", .terminate 1]).frames 0).page = none ∧
    0 ∈ (runOps (mkSystem 2 4096)
      [.create 1 1, .access 1 0 false "FIFO", .terminate 1]).free_list := by
  refine ⟨by decide, by decide, by decide⟩

/-- C10: `create_process` with a non-positive page count succeeds for any
unregistered id and registers a process whose page-table dictionary is empty
(every lookup raises `KeyError`); afterwards every `access_memory` on such a
process with a non-negative virtual address fails with the address-out-of-
bounds result, since `page_number >= pages` always holds. -/
theorem c10_nonpositive_page_count (s : VMState) (pid np : Int) (hnp : np ≤ 0)
    (hfresh : s.processes pid = none) :
    (create_process s pid np).2 = true ∧
    (create_process s pid np).1.processes pid =
      some { process_id := pid, pages := np, page_table := fun _ => none } ∧
    (∀ k, ptLookup { process_id := pid, pages := np, page_table := fun _ => none } k =
      .error .keyError) ∧
    (∀ (t : VMState) (q : Process), t.processes pid = some q → q.pages ≤ 0 →
      0 < t.page_size → ∀ va w alg, 0 ≤ va →
      (access_memory t pid va w alg).2 = .ok (false, .outOfBounds va pid)) := by
  refine ⟨?_, ?_, ?_, ?_⟩
  · simp [create_process, hfresh]
  · simp [create_process, hfresh, VMState.setProcess]
  · intro k
    unfold ptLookup
    have hpg : ({ process_id := pid, pages := np, page_table :=
        fun _ => none } : Process).pages = np := rfl
    rw [if_neg (by rw [hpg]; omega)]
  · intro t q hq hq0 hpst va w alg hva
    have hps0 : ¬ t.page_size = 0 := by omega
    have hbound : q.pages ≤ Int.fdiv va t.page_size := by
      have hfd : 0 ≤ Int.fdiv va t.page_size :=
        Int.fdiv_nonneg hva (Int.le_of_lt hpst)
      omega
    simp [access_memory, bumpAccess_processes, bumpAccess_page_size, hq, hps0, hbound]

theorem c10_nonpositive_page_count_witness :
    (create_process (mkSystem 2 4096) 5 0).2 = true ∧
    (create_process (mkSystem 2 4096) 5 0).1.processes 5 =
      some { process_id := 5, pages := 0, page_table := fun _ => none } ∧
    (∀ k, ptLookup { process_id := 5, pages := 0, page_table := fun _ => none } k =
      .error .keyError) ∧
    (∀ (t : VMState) (q : Process), t.processes 5 = some q → q.pages ≤ 0 →
      0 < t.page_size → ∀ va w alg, 0 ≤ va →
      (access_memory t 5 va w alg).2 = .ok (false, .outOfBounds va 5)) :=
  c10_nonpositive_page_count (mkSystem 2 4096) 5 0 (by decide) rfl

theorem algHits_bumpAccess (s : VMState) (alg a : String) :
    algHits (bumpAccess s alg) a = algHits s a := by
  unfold algHits bumpAccess bumpAlgStat
  split_ifs <;> rfl

theorem algHits_hitUpdate (s : VMState) (fn : Nat) (w : Bool) (a : String) :
    algHits (hitUpdate s fn w) a = algHits s a := by
  unfold algHits hitUpdate VMState.setFrame
  split_ifs <;> rfl

theorem recognizedAlg_cases (alg : String) (h : recognizedAlg alg = true) :
    alg = "FIFO" ∨ alg = "LRU" ∨ alg = "Clock" := by
  unfold recognizedAlg at h
  rcases Bool.or_eq_true_iff.mp h with h1 | h1
  · rcases Bool.or_eq_true_iff.mp h1 with h2 | h2
    · exact Or.inl (by simpa using h2)
    · exact Or.inr (Or.inl (by simpa using h2))
  · exact Or.inr (Or.inr (by simpa using h1))

theorem algHits_bumpHit (s : VMState) (alg : String)
    (h : recognizedAlg alg = true) :
    algHits (bumpHit s alg) alg = algHits s alg + 1 := by
  rcases recognizedAlg_cases alg h with h1 | h1 | h1 <;>
    (subst h1; simp [algHits, bumpHit, bumpAlgStat])

/-- C5, counterexample: a read hit on a frame whose dirty bit was set by an
earlier write leaves the dirty bit true, so "dirty bit true iff the access was
a write" fails.  Concrete run: load page 0 (fault, dirty=false), write-hit it
(dirty=true), then a read hit — the result is a page hit with write=false, and
the frame's dirty bit is still true afterwards. -/
theorem c5_dirty_counterexample :
    (access_memory (runOps (mkSystem 1 4096)
      [.create 1 1, .access 1 0 true "FIFO", .access 1 0 true "FIFO"])
      1 0 false "FIFO").2 = .ok (true, .pageHit 0 0) ∧
    ((access_memory (runOps (mkSystem 1 4096)
      [.create 1 1, .access 1 0 true "FIFO", .access 1 0 true "FIFO"])
      1 0 false "FIFO").1.frames 0).dirty_bit = true := by
  constructor <;> decide

/-- C5, amended: on every page hit, the bound frame's last-access timestamp
becomes the current clock value (the pre-call clock plus the increment
performed by this access), its reference bit becomes true, and its dirty bit
becomes true on a write and is LEFT UNCHANGED on a read; the global hit
counter and — for a recognized algorithm name — that algorithm's hit counter
are each incremented by one. -/
theorem c5_hit_metadata (s : VMState) (pid va : Int) (w : Bool) (alg : String)
    (process : Process) (hpp : s.processes pid = some process)
    (hps0 : s.page_size ≠ 0)
    (fn : Nat) (hlk : ptLookup process (Int.fdiv va s.page_size) = .ok (some fn))
    (hfn : fn < s.physical_frames) :
    (access_memory s pid va w alg).2 = .ok (true, .pageHit va fn) ∧
    ((access_memory s pid va w alg).1.frames fn).last_access_time =
      s.current_time + 1 ∧
    ((access_memory s pid va w alg).1.frames fn).reference_bit = true ∧
    ((access_memory s pid va w alg).1.frames fn).dirty_bit =
      (if w = true then true else (s.frames fn).dirty_bit) ∧
    (access_memory s pid va w alg).1.hit_count = s.hit_count + 1 ∧
    (recognizedAlg alg = true →
      algHits (access_memory s pid va w alg).1 alg = algHits s alg + 1) := by
  obtain ⟨hd0, hd1, htab⟩ := ptLookup_ok_some process (Int.fdiv va s.page_size) fn hlk
  have hbound : ¬ process.pages ≤ Int.fdiv va s.page_size := Int.not_le.mpr hd1
  have hfn' : fn < (bumpHit (bumpAccess s alg) alg).physical_frames := by
    rw [(bumpHit_fields (bumpAccess s alg) alg).2.1, (bumpAccess_fields s alg).2.1]
    exact hfn
  have hacc : access_memory s pid va w alg =
      (hitUpdate (bumpHit (bumpAccess s alg) alg) fn w,
       .ok (true, .pageHit va fn)) := by
    simp [access_memory, bumpAccess_processes, bumpAccess_page_size, hpp, hps0,
      hbound, hlk, hfn']
  rw [hacc]
  have hfrB : (bumpHit (bumpAccess s alg) alg).frames fn = s.frames fn := by
    rw [(bumpHit_fields (bumpAccess s alg) alg).1, (bumpAccess_fields s alg).1]
  have htB : (bumpHit (bumpAccess s alg) alg).current_time = s.current_time + 1 := by
    rw [(bumpHit_fields (bumpAccess s alg) alg).2.2.2.2.2.2.2.2.1,
      (bumpAccess_fields s alg).2.2.2.2.2.2.2.2.1]
  have hcB : (bumpHit (bumpAccess s alg) alg).hit_count = s.hit_count + 1 := by
    rw [(bumpHit_fields (bumpAccess s alg) alg).2.2.2.2.2.2.2.2.2.2.2.2,
      (bumpAccess_fields s alg).2.2.2.2.2.2.2.2.2.2.2.2]
  have hframe : (hitUpdate (bumpHit (bumpAccess s alg) alg) fn w).frames fn =
      { (bumpHit (bumpAccess s alg) alg).frames fn with
        last_access_time := (bumpHit (bumpAccess s alg) alg).current_time,
        reference_bit := true,
        dirty_bit := if w = true then true
          else ((bumpHit (bumpAccess s alg) alg).frames fn).dirty_bit } := by
    unfold hitUpdate VMState.setFrame
    simp
  refine ⟨rfl, ?_, ?_, ?_, ?_, ?_⟩
  · rw [hframe]
    simp only
    rw [htB]
  · rw [hframe]
  · rw [hframe]
    simp only
    rw [hfrB]
  · show (hitUpdate (bumpHit (bumpAccess s alg) alg) fn w).hit_count = s.hit_count + 1
    have : (hitUpdate (bumpHit (bumpAccess s alg) alg) fn w).hit_count =
        (bumpHit (bumpAccess s alg) alg).hit_count := rfl
    rw [this, hcB]
  · intro hrec
    show algHits (hitUpdate (bumpHit (bumpAccess s alg) alg) fn w) alg =
      algHits s alg + 1
    rw [algHits_hitUpdate, algHits_bumpHit _ _ hrec, algHits_bumpAccess]

theorem c5_hit_metadata_witness :
    (access_memory (applyOp (applyOp (mkSystem 1 4096) (.create 1 1))
      (.access 1 0 false "FIFO")) 1 0 false "FIFO").2 = .ok (true, .pageHit 0 0) ∧
    ((access_memory (applyOp (applyOp (mkSystem 1 4096) (.create 1 1))
      (.access 1 0 false "FIFO")) 1 0 false "FIFO").1.frames 0).last_access_time =
      (applyOp (applyOp (mkSystem 1 4096) (.create 1 1))
        (.access 1 0 false "FIFO")).current_time + 1 ∧
    ((access_memory (applyOp (applyOp (mkSystem 1 4096) (.create 1 1))
      (.access 1 0 false "FIFO")) 1 0 false "FIFO").1.frames 0).reference_bit =
      true ∧
    ((access_memory (applyOp (applyOp (mkSystem 1 4096) (.create 1 1))
      (.access 1 0 false "FIFO")) 1 0 false "FIFO").1.frames 0).dirty_bit =
      (if false = true then true else
        ((applyOp (applyOp (mkSystem 1 4096) (.create 1 1))
          (.access 1 0 false "FIFO")).frames 0).dirty_bit) ∧
    (access_memory (applyOp (applyOp (mkSystem 1 4096) (.create 1 1))
      (.access 1 0 false "FIFO")) 1 0 false "FIFO").1.hit_count =
      (applyOp (applyOp (mkSystem 1 4096) (.create 1 1))
        (.access 1 0 false "FIFO")).hit_count + 1 ∧
    (recognizedAlg "FIFO" = true →
      algHits (access_memory (applyOp (applyOp (mkSystem 1 4096) (.create 1 1))
        (.access 1 0 false "FIFO")) 1 0 false "FIFO").1 "FIFO" =
      algHits (applyOp (applyOp (mkSystem 1 4096) (.create 1 1))
        (.access 1 0 false "FIFO")) "FIFO" + 1) :=
  c5_hit_metadata _ 1 0 false "FIFO" _ rfl (by decide) 0 (by decide) (by decide)

theorem countersEq_refl (a : VMState) : CountersEq a a :=
  ⟨rfl, rfl, rfl, rfl, rfl, rfl, rfl⟩

theorem countersEq_trans (a b c : VMState) (h1 : CountersEq a b)
    (h2 : CountersEq b c) : CountersEq a c := by
  obtain ⟨x1, x2, x3, x4, x5, x6, x7⟩ := h1
  obtain ⟨y1, y2, y3, y4, y5, y6, y7⟩ := h2
  exact ⟨x1.trans y1, x2.trans y2, x3.trans y3, x4.trans y4, x5.trans y5,
    x6.trans y6, x7.trans y7⟩

theorem countersEq_setPTEntry (s : VMState) (pid k : Int) (v : Option Nat) :
    CountersEq (setPTEntry s pid k v) s := by
  unfold CountersEq setPTEntry
  cases s.processes pid <;> exact ⟨rfl, rfl, rfl, rfl, rfl, rfl, rfl⟩

theorem countersEq_loadFreeFrame (s : VMState) (pid pn : Int) (np : Page)
    (f : Nat) (rest : List Nat) :
    CountersEq (loadFreeFrame s pid pn np f rest) s :=
  countersEq_setPTEntry _ pid pn (some f)

theorem countersEq_replaceVictim (s : VMState) (pid pn : Int) (np : Page)
    (v : Nat) : CountersEq (replaceVictim s pid pn np v) s := by
  unfold replaceVictim
  cases hpg : (s.frames v).page with
  | none =>
      simp only
      exact countersEq_setPTEntry _ pid pn (some v)
  | some oldp =>
      simp only
      refine countersEq_trans _ _ _ (countersEq_setPTEntry _ pid pn (some v)) ?_
      exact countersEq_setPTEntry _ oldp.process_id oldp.page_number none

theorem countersEq_select (s : VMState) (alg : String) :
    CountersEq (selectVictimPage s alg).1 s := by
  unfold selectVictimPage
  by_cases hemp : (occupiedIndices s).isEmpty = true
  · rw [if_pos hemp]
    exact countersEq_refl s
  · rw [if_neg hemp]
    by_cases h1 : alg = "FIFO"
    · rw [if_pos h1]
      unfold fifoReplacement
      cases hq : s.fifo_queue with
      | nil => exact countersEq_refl s
      | cons f rest => exact ⟨rfl, rfl, rfl, rfl, rfl, rfl, rfl⟩
    · rw [if_neg h1]
      by_cases h2 : alg = "LRU"
      · rw [if_pos h2]
        exact countersEq_refl s
      · rw [if_neg h2]
        by_cases h3 : alg = "Clock"
        · rw [if_pos h3]
          unfold clockReplacement
          cases hca : clockAux s.physical_frames s.frames s.clock_hand
              (2 * s.physical_frames + 1) with
          | none => exact countersEq_refl s
          | some res =>
              obtain ⟨fr', h', v⟩ := res
              exact ⟨rfl, rfl, rfl, rfl, rfl, rfl, rfl⟩
        · rw [if_neg h3]
          exact countersEq_refl s

theorem countersEq_handle_fault (s : VMState) (pid pn : Int) (alg : String) :
    CountersEq (handle_page_fault s pid pn alg).1 s := by
  cases hpp : s.processes pid with
  | none =>
      have hres : handle_page_fault s pid pn alg = (s, .error .keyError) := by
        simp [handle_page_fault, hpp]
      rw [hres]
      exact countersEq_refl s
  | some pr =>
      cases hfree : s.free_frames with
      | cons f rest =>
          by_cases hlt : f < s.physical_frames
          · have hres : handle_page_fault s pid pn alg =
                (loadFreeFrame s pid pn
                  { page_number := pn, process_id := pid,
                    data := s!"Data_{pid}_{pn}" } f rest,
                 .ok (true, .faultLoadedFree pn pid f)) := by
              simp [handle_page_fault, hpp, hfree, hlt]
            rw [hres]
            exact countersEq_loadFreeFrame s pid pn _ f rest
          · have hres : handle_page_fault s pid pn alg =
                ({ s with free_frames := rest, free_list := s.free_list.erase f },
                 .error .indexError) := by
              simp [handle_page_fault, hpp, hfree, hlt]
            rw [hres]
            exact ⟨rfl, rfl, rfl, rfl, rfl, rfl, rfl⟩
      | nil =>
          cases hsel : (selectVictimPage s alg).2 with
          | error e =>
              have hres : handle_page_fault s pid pn alg =
                  ((selectVictimPage s alg).1, .error e) := by
                simp [handle_page_fault, hpp, hfree, hsel]
              rw [hres]
              exact countersEq_select s alg
          | ok victim =>
              by_cases hlt : victim < (selectVictimPage s alg).1.physical_frames
              · have hres : handle_page_fault s pid pn alg =
                    (replaceVictim (selectVictimPage s alg).1 pid pn
                      { page_number := pn, process_id := pid,
                        data := s!"Data_{pid}_{pn}" } victim,
                     .ok (true, .faultReplaced victim pn pid)) := by
                  simp [handle_page_fault, hpp, hfree, hsel, hlt]
                rw [hres]
                exact countersEq_trans _ _ _
                  (countersEq_replaceVictim _ pid pn _ victim)
                  (countersEq_select s alg)
              · have hres : handle_page_fault s pid pn alg =
                    ((selectVictimPage s alg).1, .error .indexError) := by
                  simp [handle_page_fault, hpp, hfree, hsel, hlt]
                rw [hres]
                exact countersEq_select s alg

theorem algAccesses_bumpAccess_rec (s : VMState) (alg : String)
    (h : recognizedAlg alg = true) :
    algAccesses (bumpAccess s alg) alg = algAccesses s alg + 1 := by
  rcases recognizedAlg_cases alg h with h1 | h1 | h1 <;>
    (subst h1; simp [algAccesses, bumpAccess, bumpAlgStat])

theorem algAccesses_bumpHit (s : VMState) (alg a : String) :
    algAccesses (bumpHit s alg) a = algAccesses s a := by
  unfold algAccesses bumpHit bumpAlgStat
  split_ifs <;> rfl

theorem algAccesses_bumpFault (s : VMState) (alg a : String) :
    algAccesses (bumpFault s alg) a = algAccesses s a := by
  unfold algAccesses bumpFault bumpAlgStat
  split_ifs <;> rfl

theorem algAccesses_hitUpdate (s : VMState) (fn : Nat) (w : Bool) (a : String) :
    algAccesses (hitUpdate s fn w) a = algAccesses s a := by
  unfold algAccesses hitUpdate VMState.setFrame
  split_ifs <;> rfl

theorem algAccesses_of_countersEq (a b : VMState) (h : CountersEq a b)
    (x : String) : algAccesses a x = algAccesses b x := by
  obtain ⟨_, _, _, _, h5, h6, h7⟩ := h
  unfold algAccesses
  split_ifs <;> simp [h5, h6, h7]

theorem algFaults_of_countersEq (a b : VMState) (h : CountersEq a b)
    (x : String) : algFaults a x = algFaults b x := by
  obtain ⟨_, _, _, _, h5, h6, h7⟩ := h
  unfold algFaults
  split_ifs <;> simp [h5, h6, h7]

theorem algHits_of_countersEq (a b : VMState) (h : CountersEq a b)
    (x : String) : algHits a x = algHits b x := by
  obtain ⟨_, _, _, _, h5, h6, h7⟩ := h
  unfold algHits
  split_ifs <;> simp [h5, h6, h7]

theorem algFaults_bumpAccess (s : VMState) (alg a : String) :
    algFaults (bumpAccess s alg) a = algFaults s a := by
  unfold algFaults bumpAccess bumpAlgStat
  split_ifs <;> rfl

/-- C6: every `access_memory` call increments the global clock and the global
and (for a recognized name) per-algorithm access counters before any
validation — they increase on every call, including calls that then fail with
the unknown-process or out-of-bounds result — and an unknown-process failure
leaves every fault and hit counter (global and per-algorithm) unchanged. -/
theorem c6_access_counters (s : VMState) (pid va : Int) (w : Bool)
    (alg : String) :
    (access_memory s pid va w alg).1.current_time = s.current_time + 1 ∧
    (access_memory s pid va w alg).1.memory_accesses = s.memory_accesses + 1 ∧
    (recognizedAlg alg = true →
      algAccesses (access_memory s pid va w alg).1 alg = algAccesses s alg + 1) ∧
    (s.processes pid = none →
      (access_memory s pid va w alg).1.page_faults = s.page_faults ∧
      (access_memory s pid va w alg).1.hit_count = s.hit_count ∧
      (∀ a, algFaults (access_memory s pid va w alg).1 a = algFaults s a) ∧
      (∀ a, algHits (access_memory s pid va w alg).1 a = algHits s a)) := by
  obtain ⟨bA1, bA2, bA3, bA4, bA5, bA6, bA7, bA8, bA9, bA10, bA11, bA12, bA13⟩ :=
    bumpAccess_fields s alg
  cases hpp : s.processes pid with
  | none =>
      have hacc : access_memory s pid va w alg =
          (bumpAccess s alg, .ok (false, .processNotExist pid)) := by
        simp [access_memory, bumpAccess_processes, hpp]
      rw [hacc]
      refine ⟨bA9, bA11, fun hrec => algAccesses_bumpAccess_rec s alg hrec, ?_⟩
      intro _
      exact ⟨bA12, bA13, fun a => algFaults_bumpAccess s alg a,
        fun a => algHits_bumpAccess s alg a⟩
  | some process =>
      by_cases hps0 : s.page_size = 0
      · have hacc : access_memory s pid va w alg =
            (bumpAccess s alg, .error .zeroDivision) := by
          simp [access_memory, bumpAccess_processes, bumpAccess_page_size, hpp, hps0]
        rw [hacc]
        exact ⟨bA9, bA11, fun hrec => algAccesses_bumpAccess_rec s alg hrec,
          fun hc => nomatch hc⟩
      · by_cases hbound : process.pages ≤ Int.fdiv va s.page_size
        · have hacc : access_memory s pid va w alg =
              (bumpAccess s alg, .ok (false, .outOfBounds va pid)) := by
            simp [access_memory, bumpAccess_processes, bumpAccess_page_size, hpp,
              hps0, hbound]
          rw [hacc]
          exact ⟨bA9, bA11, fun hrec => algAccesses_bumpAccess_rec s alg hrec,
            fun hc => nomatch hc⟩
        · cases hlk : ptLookup process (Int.fdiv va s.page_size) with
          | error e =>
              have hacc : access_memory s pid va w alg =
                  (bumpAccess s alg, .error e) := by
                simp [access_memory, bumpAccess_processes, bumpAccess_page_size,
                  hpp, hps0, hbound, hlk]
              rw [hacc]
              exact ⟨bA9, bA11, fun hrec => algAccesses_bumpAccess_rec s alg hrec,
                fun hc => nomatch hc⟩
          | ok olk =>
              cases olk with
              | some fn =>
                  by_cases hfn : fn < (bumpHit (bumpAccess s alg) alg).physical_frames
                  · have hacc : access_memory s pid va w alg =
                        (hitUpdate (bumpHit (bumpAccess s alg) alg) fn w,
                         .ok (true, .pageHit va fn)) := by
                      simp [access_memory, bumpAccess_processes, bumpAccess_page_size,
                        hpp, hps0, hbound, hlk, hfn]
                    rw [hacc]
                    obtain ⟨_, _, _, _, _, _, _, _, bH9, _, bH11, _, _⟩ :=
                      bumpHit_fields (bumpAccess s alg) alg
                    refine ⟨?_, ?_, ?_, fun hc => nomatch hc⟩
                    · show (bumpHit (bumpAccess s alg) alg).current_time =
                        s.current_time + 1
                      rw [bH9, bA9]
                    · show (bumpHit (bumpAccess s alg) alg).memory_accesses =
                        s.memory_accesses + 1
                      rw [bH11, bA11]
                    · intro hrec
                      rw [algAccesses_hitUpdate, algAccesses_bumpHit]
                      exact algAccesses_bumpAccess_rec s alg hrec
                  · have hacc : access_memory s pid va w alg =
                        (bumpHit (bumpAccess s alg) alg, .error .indexError) := by
                      simp [access_memory, bumpAccess_processes, bumpAccess_page_size,
                        hpp, hps0, hbound, hlk, hfn]
                    rw [hacc]
                    obtain ⟨_, _, _, _, _, _, _, _, bH9, _, bH11, _, _⟩ :=
                      bumpHit_fields (bumpAccess s alg) alg
                    refine ⟨?_, ?_, ?_, fun hc => nomatch hc⟩
                    · rw [bH9, bA9]
                    · rw [bH11, bA11]
                    · intro hrec
                      rw [algAccesses_bumpHit]
                      exact algAccesses_bumpAccess_rec s alg hrec
              | none =>
                  have hacc : access_memory s pid va w alg =
                      handle_page_fault (bumpFault (bumpAccess s alg) alg) pid
                        (Int.fdiv va s.page_size) alg := by
                    simp [access_memory, bumpAccess_processes, bumpAccess_page_size,
                      hpp, hps0, hbound, hlk]
                  rw [hacc]
                  have hce := countersEq_handle_fault
                    (bumpFault (bumpAccess s alg) alg) pid
                    (Int.fdiv va s.page_size) alg
                  have c1 := hce.1
                  have c2 := hce.2.1
                  obtain ⟨_, _, _, _, _, _, _, _, bF9, _, bF11, _, _⟩ :=
                    bumpFault_fields (bumpAccess s alg) alg
                  refine ⟨?_, ?_, ?_, fun hc => nomatch hc⟩
                  · rw [c1, bF9, bA9]
                  · rw [c2, bF11, bA11]
                  · intro hrec
                    rw [algAccesses_of_countersEq _ _ hce alg,
                      algAccesses_bumpFault]
                    exact algAccesses_bumpAccess_rec s alg hrec

theorem c6_access_counters_witness :
    (access_memory (mkSystem 2 4096) 9 0 false "LRU").1.current_time =
      (mkSystem 2 4096).current_time + 1 ∧
    (access_memory (mkSystem 2 4096) 9 0 false "LRU").1.memory_accesses =
      (mkSystem 2 4096).memory_accesses + 1 ∧
    (recognizedAlg "LRU" = true →
      algAccesses (access_memory (mkSystem 2 4096) 9 0 false "LRU").1 "LRU" =
        algAccesses (mkSystem 2 4096) "LRU" + 1) ∧
    ((mkSystem 2 4096).processes 9 = none →
      (access_memory (mkSystem 2 4096) 9 0 false "LRU").1.page_faults =
        (mkSystem 2 4096).page_faults ∧
      (access_memory (mkSystem 2 4096) 9 0 false "LRU").1.hit_count =
        (mkSystem 2 4096).hit_count ∧
      (∀ a, algFaults (access_memory (mkSystem 2 4096) 9 0 false "LRU").1 a =
        algFaults (mkSystem 2 4096) a) ∧
      (∀ a, algHits (access_memory (mkSystem 2 4096) 9 0 false "LRU").1 a =
        algHits (mkSystem 2 4096) a)) :=
  c6_access_counters (mkSystem 2 4096) 9 0 false "LRU"

/-- C8: whenever at least one frame is occupied, `_lru_replacement` returns
the index of an occupied frame whose last-access timestamp is minimal among
occupied frames, and on ties the first such frame in frame-index scan order
(every occupied frame with a smaller index has a strictly larger timestamp). -/
theorem c8_lru_minimum (s : VMState)
    (hocc : ∃ i, i < s.physical_frames ∧ ((s.frames i).page).isSome = true) :
    lruReplacement s < s.physical_frames ∧
    ((s.frames (lruReplacement s)).page).isSome = true ∧
    (∀ j, j < s.physical_frames → ((s.frames j).page).isSome = true →
      (s.frames (lruReplacement s)).last_access_time ≤
        (s.frames j).last_access_time) ∧
    (∀ j, j < lruReplacement s → ((s.frames j).page).isSome = true →
      (s.frames (lruReplacement s)).last_access_time <
        (s.frames j).last_access_time) := by
  have hmem : ∀ x, x ∈ occupiedIndices s ↔
      x < s.physical_frames ∧ ((s.frames x).page).isSome = true := by
    intro x
    unfold occupiedIndices
    rw [List.mem_filter, List.mem_range]
  cases hoc : occupiedIndices s with
  | nil =>
      obtain ⟨i, hi, hio⟩ := hocc
      have := (hmem i).mpr ⟨hi, hio⟩
      rw [hoc] at this
      cases this
  | cons i0 t =>
      have hlr : lruReplacement s = lruFold s i0 t := by
        simp only [lruReplacement, hoc, lruFold]
      have hsorted : (i0 :: t).Pairwise (· < ·) := by
        rw [← hoc]
        unfold occupiedIndices
        exact (List.pairwise_lt_range s.physical_frames).filter _
      obtain ⟨h1, h2, h3, _⟩ := lruFold_spec s t i0 hsorted
      have hro : lruFold s i0 t < s.physical_frames ∧
          ((s.frames (lruFold s i0 t)).page).isSome = true := by
        have := (hmem (lruFold s i0 t)).mp (by rw [hoc]; exact h1)
        exact this
      rw [hlr]
      refine ⟨hro.1, hro.2, ?_, ?_⟩
      · intro j hj hjo
        have hjl : j ∈ i0 :: t := by
          rw [← hoc]
          exact (hmem j).mpr ⟨hj, hjo⟩
        exact h2 j hjl
      · intro j hj hjo
        have hjn : j < s.physical_frames := Nat.lt_trans hj hro.1
        have hjl : j ∈ i0 :: t := by
          rw [← hoc]
          exact (hmem j).mpr ⟨hjn, hjo⟩
        exact h3 j hjl hj

theorem c8_lru_minimum_witness :
    lruReplacement (applyOp (applyOp (mkSystem 2 16) (.create 1 2))
      (.access 1 0 false "LRU")) <
      (applyOp (applyOp (mkSystem 2 16) (.create 1 2))
        (.access 1 0 false "LRU")).physical_frames ∧
    (((applyOp (applyOp (mkSystem 2 16) (.create 1 2))
      (.access 1 0 false "LRU")).frames (lruReplacement (applyOp (applyOp
      (mkSystem 2 16) (.create 1 2)) (.access 1 0 false "LRU")))).page).isSome =
      true ∧
    (∀ j, j < (applyOp (applyOp (mkSystem 2 16) (.create 1 2))
        (.access 1 0 false "LRU")).physical_frames →
      (((applyOp (applyOp (mkSystem 2 16) (.create 1 2))
        (.access 1 0 false "LRU")).frames j).page).isSome = true →
      ((applyOp (applyOp (mkSystem 2 16) (.create 1 2))
        (.access 1 0 false "LRU")).frames (lruReplacement (applyOp (applyOp
        (mkSystem 2 16) (.create 1 2))
        (.access 1 0 false "LRU")))).last_access_time ≤
        ((applyOp (applyOp (mkSystem 2 16) (.create 1 2))
          (.access 1 0 false "LRU")).frames j).last_access_time) ∧
    (∀ j, j < lruReplacement (applyOp (applyOp (mkSystem 2 16) (.create 1 2))
        (.access 1 0 false "LRU")) →
      (((applyOp (applyOp (mkSystem 2 16) (.create 1 2))
        (.access 1 0 false "LRU")).frames j).page).isSome = true →
      ((applyOp (applyOp (mkSystem 2 16) (.create 1 2))
        (.access 1 0 false "LRU")).frames (lruReplacement (applyOp (applyOp
        (mkSystem 2 16) (.create 1 2))
        (.access 1 0 false "LRU")))).last_access_time <
        ((applyOp (applyOp (mkSystem 2 16) (.create 1 2))
          (.access 1 0 false "LRU")).frames j).last_access_time) :=
  c8_lru_minimum _ ⟨0, by decide, by decide⟩

/-- C9: clock victim selection terminates whenever at least one frame is
occupied (the fuelled scan returns a result); and starting from a state in
which every frame is occupied with its reference bit set, it clears every
reference bit exactly once in one full sweep, selects the frame under the
initial hand as victim, and leaves the hand one position past the victim. -/
theorem c9_clock_termination_and_sweep (s : VMState)
    (hn : 0 < s.physical_frames) (hh : s.clock_hand < s.physical_frames)
    (hocc : ∃ j, j < s.physical_frames ∧ ((s.frames j).page).isSome = true) :
    (∃ r, clockReplacement s = some r) ∧
    ((∀ i, i < s.physical_frames → ((s.frames i).page).isSome = true ∧
        (s.frames i).reference_bit = true) →
      ∃ s', clockReplacement s = some (s', s.clock_hand) ∧
        s'.clock_hand = (s.clock_hand + 1) % s.physical_frames ∧
        ∀ i, i < s.physical_frames → (s'.frames i).reference_bit = false ∧
          (s'.frames i).page = (s.frames i).page) := by
  constructor
  · obtain ⟨j, hj, hjo⟩ := hocc
    have htot : (clockAux s.physical_frames s.frames s.clock_hand
        (2 * s.physical_frames + 1)).isSome = true := by
      refine clockAux_total s.physical_frames hn
        (cdist s.physical_frames s.clock_hand j) s.frames s.clock_hand j
        (2 * s.physical_frames + 1) hh hj rfl hjo ?_
      have := cdist_lt s.physical_frames s.clock_hand j hn hh hj
      omega
    cases hca : clockAux s.physical_frames s.frames s.clock_hand
        (2 * s.physical_frames + 1) with
    | none => rw [hca] at htot; cases htot
    | some res =>
        obtain ⟨fr', h', v⟩ := res
        refine ⟨({ s with frames := fr', clock_hand := h' }, v), ?_⟩
        simp [clockReplacement, hca]
  · intro hall
    obtain ⟨fr', heq, hprops⟩ := clockAux_sweep s.physical_frames hn
      s.physical_frames s.frames s.clock_hand (2 * s.physical_frames + 1) hh
      (Nat.le_refl _) (fun i hi => (hall i hi).1)
      (fun i hi => by
        rw [(hall i hi).2]
        simp [cdist_lt s.physical_frames s.clock_hand i hn hh hi])
      (by omega)
    have hhand : (s.clock_hand + s.physical_frames) % s.physical_frames =
        s.clock_hand := by
      rw [Nat.add_mod_right]
      exact Nat.mod_eq_of_lt hh
    rw [hhand] at heq
    refine ⟨{ s with frames := fr', clock_hand := (s.clock_hand + 1) %
      s.physical_frames }, ?_, rfl, ?_⟩
    · simp [clockReplacement, heq]
    · intro i hi
      exact ⟨(hprops i hi).2, (hprops i hi).1⟩

theorem c9_clock_termination_and_sweep_witness :
    (∃ r, clockReplacement (runOps (mkSystem 2 16)
      [.create 1 3, .access 1 0 false "Clock", .access 1 16 false "Clock",
       .access 1 0 false "Clock", .access 1 16 false "Clock"]) = some r) ∧
    ((∀ i, i < (runOps (mkSystem 2 16)
        [.create 1 3, .access 1 0 false "Clock", .access 1 16 false "Clock",
         .access 1 0 false "Clock", .access 1 16 false "Clock"]).physical_frames →
        (((runOps (mkSystem 2 16)
          [.create 1 3, .access 1 0 false "Clock", .access 1 16 false "Clock",
           .access 1 0 false "Clock", .access 1 16 false "Clock"]).frames i).page).isSome =
          true ∧
        ((runOps (mkSystem 2 16)
          [.create 1 3, .access 1 0 false "Clock", .access 1 16 false "Clock",
           .access 1 0 false "Clock", .access 1 16 false "Clock"]).frames i).reference_bit =
          true) →
      ∃ s', clockReplacement (runOps (mkSystem 2 16)
          [.create 1 3, .access 1 0 false "Clock", .access 1 16 false "Clock",
           .access 1 0 false "Clock", .access 1 16 false "Clock"]) =
          some (s', (runOps (mkSystem 2 16)
            [.create 1 3, .access 1 0 false "Clock", .access 1 16 false "Clock",
             .access 1 0 false "Clock", .access 1 16 false "Clock"]).clock_hand) ∧
        s'.clock_hand = ((runOps (mkSystem 2 16)
          [.create 1 3, .access 1 0 false "Clock", .access 1 16 false "Clock",
           .access 1 0 false "Clock", .access 1 16 false "Clock"]).clock_hand + 1) %
          (runOps (mkSystem 2 16)
            [.create 1 3, .access 1 0 false "Clock", .access 1 16 false "Clock",
             .access 1 0 false "Clock", .access 1 16 false "Clock"]).physical_frames ∧
        ∀ i, i < (runOps (mkSystem 2 16)
            [.create 1 3, .access 1 0 false "Clock", .access 1 16 false "Clock",
             .access 1 0 false "Clock", .access 1 16 false "Clock"]).physical_frames →
          (s'.frames i).reference_bit = false ∧
          (s'.frames i).page = ((runOps (mkSystem 2 16)
            [.create 1 3, .access 1 0 false "Clock", .access 1 16 false "Clock",
             .access 1 0 false "Clock", .access 1 16 false "Clock"]).frames i).page) :=
  c9_clock_termination_and_sweep _ (by decide) (by decide) ⟨0, by decide, by decide⟩

theorem hitUpdate_load (s : VMState) (fn : Nat) (w : Bool) (j : Nat) :
    ((hitUpdate s fn w).frames j).load_time = (s.frames j).load_time := by
  unfold hitUpdate VMState.setFrame
  simp only
  by_cases hj : j = fn
  · rw [if_pos hj, hj]
  · rw [if_neg hj]

theorem c7_load_char (n : Nat) (ps np : Int) (pg : Nat → Int)
    (hps : 0 < ps) (hdom : ∀ i, i < n → 0 ≤ pg i ∧ pg i < np)
    (hinj : ∀ i j, i < n → j < n → pg i = pg j → i = j) :
    ∀ k, k ≤ n →
    (c7State n ps np pg k).physical_frames = n ∧
    (c7State n ps np pg k).page_size = ps ∧
    (c7State n ps np pg k).current_time = k ∧
    (c7State n ps np pg k).free_frames = List.range' k (n - k) ∧
    (c7State n ps np pg k).free_list = List.range' k (n - k) ∧
    (c7State n ps np pg k).fifo_queue = List.range k ∧
    (∃ pr, (c7State n ps np pg k).processes 1 = some pr ∧ pr.pages = np ∧
      (∀ i, i < k → pr.page_table (pg i) = some i) ∧
      (∀ m, (∀ i, i < k → m ≠ pg i) → pr.page_table m = none)) ∧
    (∀ j, j < k → (((c7State n ps np pg k).frames j).page).isSome = true ∧
      ((c7State n ps np pg k).frames j).load_time = j + 1) := by
  intro k
  induction k with
  | zero =>
      intro _
      have hbase : c7State n ps np pg 0 =
          (create_process (mkSystem n ps) 1 np).1 := by
        simp [c7State, runOps, applyOp]
      rw [hbase]
      have hcr : (create_process (mkSystem n ps) 1 np).1 =
          (mkSystem n ps).setProcess 1
            (some { process_id := 1, pages := np, page_table := fun _ => none }) := by
        simp [create_process, mkSystem]
      rw [hcr]
      refine ⟨rfl, rfl, rfl, ?_, ?_, rfl, ?_, ?_⟩
      · show List.range n = List.range' 0 (n - 0)
        rw [Nat.sub_zero]
        exact List.range_eq_range' n
      · show List.range n = List.range' 0 (n - 0)
        rw [Nat.sub_zero]
        exact List.range_eq_range' n
      · refine ⟨{ process_id := 1, pages := np, page_table := fun _ => none },
          ?_, rfl, ?_, ?_⟩
        · simp [VMState.setProcess]
        · intro i hi
          cases hi
        · intro m _
          rfl
      · intro j hj
        cases hj
  | succ k ih =>
      intro hk1
      have hkn : k < n := hk1
      obtain ⟨e1, e2, e3, e4, e5, e6, ⟨pr, hpr, hpg, htab1, htab2⟩, hframes⟩ :=
        ih (Nat.le_of_lt hkn)
      set S := c7State n ps np pg k with hS
      have hsucc : c7State n ps np pg (k + 1) =
          applyOp S (Op.access 1 (pg k * ps) false "FIFO") := by
        rw [hS]
        unfold c7State
        rw [List.range_succ, List.map_append, ← List.cons_append]
        unfold runOps
        rw [List.foldl_append]
        rfl
      have hps0 : ¬ S.page_size = 0 := by
        rw [e2]
        omega
      have hfdiv : Int.fdiv (pg k * ps) S.page_size = pg k := by
        rw [e2]
        exact Int.mul_fdiv_cancel _ (by omega)
      have hbound : ¬ pr.pages ≤ Int.fdiv (pg k * ps) S.page_size := by
        rw [hfdiv, hpg]
        exact Int.not_le.mpr (hdom k hkn).2
      have hlk : ptLookup pr (Int.fdiv (pg k * ps) S.page_size) = .ok none := by
        rw [hfdiv]
        unfold ptLookup
        rw [if_pos ⟨(hdom k hkn).1, hpg ▸ (hdom k hkn).2⟩]
        rw [htab2 (pg k) ?_]
        intro i hik he
        have := hinj k i hkn (Nat.lt_trans hik hkn) he
        omega
      have hacc : access_memory S 1 (pg k * ps) false "FIFO" =
          handle_page_fault (bumpFault (bumpAccess S "FIFO") "FIFO") 1
            (Int.fdiv (pg k * ps) S.page_size) "FIFO" := by
        simp [access_memory, bumpAccess_processes, bumpAccess_page_size, hpr,
          hps0, hbound, hlk]
      set S3 := bumpFault (bumpAccess S "FIFO") "FIFO" with hS3
      have hp3 : S3.processes 1 = some pr := by
        rw [hS3, (bumpFault_fields _ _).2.2.1, bumpAccess_processes]
        exact hpr
      have hn3 : S3.physical_frames = n := by
        rw [hS3, (bumpFault_fields _ _).2.1, (bumpAccess_fields _ _).2.1, e1]
      have ht3 : S3.current_time = k + 1 := by
        rw [hS3, (bumpFault_fields _ _).2.2.2.2.2.2.2.2.1,
          (bumpAccess_fields _ _).2.2.2.2.2.2.2.2.1, e3]
      have hf3 : S3.frames = S.frames := by
        rw [hS3, (bumpFault_fields _ _).1, (bumpAccess_fields _ _).1]
      have hnk : n - k = (n - (k + 1)) + 1 := by omega
      have hfree3 : S3.free_frames = k :: List.range' (k + 1) (n - (k + 1)) := by
        rw [hS3, (bumpFault_fields _ _).2.2.2.1, (bumpAccess_fields _ _).2.2.2.1, e4,
          hnk]
        rfl
      have hfl3 : S3.free_list = k :: List.range' (k + 1) (n - (k + 1)) := by
        rw [hS3, (bumpFault_fields _ _).2.2.2.2.1, (bumpAccess_fields _ _).2.2.2.2.1,
          e5, hnk]
        rfl
      have hq3 : S3.fifo_queue = List.range k := by
        rw [hS3, (bumpFault_fields _ _).2.2.2.2.2.2.1,
          (bumpAccess_fields _ _).2.2.2.2.2.2.1, e6]
      have hs3ps : S3.page_size = ps := by
        rw [hS3, (bumpFault_fields _ _).2.2.2.2.2.2.2.2.2.1,
          bumpAccess_page_size, e2]
      have hklt : k < S3.physical_frames := by
        rw [hn3]
        exact hkn
      have hres : handle_page_fault S3 1 (Int.fdiv (pg k * ps) S.page_size) "FIFO" =
          (loadFreeFrame S3 1 (Int.fdiv (pg k * ps) S.page_size)
            { page_number := Int.fdiv (pg k * ps) S.page_size, process_id := 1,
              data := s!"Data_{(1 : Int)}_{Int.fdiv (pg k * ps) S.page_size}" } k
            (List.range' (k + 1) (n - (k + 1))),
           .ok (true, .faultLoadedFree (Int.fdiv (pg k * ps) S.page_size) 1 k)) := by
        simp [handle_page_fault, hp3, hfree3, hklt]
      obtain ⟨lF, lP, lN, lFF, lFL, lB, lQ, lH, lT, lS⟩ :=
        loadFreeFrame_fields S3 1 (Int.fdiv (pg k * ps) S.page_size)
          { page_number := Int.fdiv (pg k * ps) S.page_size, process_id := 1,
            data := s!"Data_{(1 : Int)}_{Int.fdiv (pg k * ps) S.page_size}" } k
          (List.range' (k + 1) (n - (k + 1))) pr hp3
      have hfin : c7State n ps np pg (k + 1) =
          loadFreeFrame S3 1 (Int.fdiv (pg k * ps) S.page_size)
            { page_number := Int.fdiv (pg k * ps) S.page_size, process_id := 1,
              data := s!"Data_{(1 : Int)}_{Int.fdiv (pg k * ps) S.page_size}" } k
            (List.range' (k + 1) (n - (k + 1))) := by
        rw [hsucc]
        show (access_memory S 1 (pg k * ps) false "FIFO").1 = _
        rw [hacc, hres]
      rw [hfin]
      refine ⟨?_, ?_, ?_, ?_, ?_, ?_, ?_, ?_⟩
      · rw [lN, hn3]
      · rw [lS, hs3ps]
      · rw [(countersEq_loadFreeFrame S3 1 _ _ k _).1, ht3]
      · rw [lFF]
      · rw [lFL, hfl3]
        exact List.erase_cons_head k _
      · rw [lQ, hq3, List.range_succ]
      · refine ⟨{ pr with page_table := fun j =>
            if j = Int.fdiv (pg k * ps) S.page_size then some k
            else pr.page_table j }, ?_, hpg, ?_, ?_⟩
        · rw [lP 1]
          simp
        · intro i hi
          show (if pg i = Int.fdiv (pg k * ps) S.page_size then some k
            else pr.page_table (pg i)) = some i
          rw [hfdiv]
          by_cases hik : i = k
          · rw [if_pos (by rw [hik])]
            rw [hik]
          · rw [if_neg ?_]
            · exact htab1 i (by omega)
            · intro he
              exact hik (hinj i k (by omega) hkn he)
        · intro m hm
          show (if m = Int.fdiv (pg k * ps) S.page_size then some k
            else pr.page_table m) = none
          rw [hfdiv, if_neg (hm k (by omega))]
          exact htab2 m (fun i hik => hm i (by omega))
      · intro j hj
        rw [lF j]
        by_cases hjk : j = k
        · rw [if_pos hjk]
          refine ⟨rfl, ?_⟩
          simp only
          rw [ht3, hjk]
        · rw [if_neg hjk]
          rw [hf3]
          exact hframes j (by omega)

theorem c7_hit_step (n : Nat) (ps np : Int) (pg : Nat → Int)
    (hps : 0 < ps) (hdom : ∀ i, i < n → 0 ≤ pg i ∧ pg i < np)
    (s : VMState) (hL : C7Loaded n ps np pg s)
    (va : Int) (wr : Bool) (a : String)
    (hva : ∃ i, i < n ∧ Int.fdiv va ps = pg i) :
    C7Loaded n ps np pg (applyOp s (.access 1 va wr a)) := by
  obtain ⟨e1, e2, e3, e4, ⟨pr, hpr, hpg2, htab1, htab2⟩, hframes⟩ := hL
  obtain ⟨i, hin, hfdi⟩ := hva
  have hps0 : ¬ s.page_size = 0 := by
    rw [e2]
    omega
  have hfdiv : Int.fdiv va s.page_size = pg i := by
    rw [e2]
    exact hfdi
  have hbound : ¬ pr.pages ≤ Int.fdiv va s.page_size := by
    rw [hfdiv, hpg2]
    exact Int.not_le.mpr (hdom i hin).2
  have hlk : ptLookup pr (Int.fdiv va s.page_size) = .ok (some i) := by
    rw [hfdiv]
    unfold ptLookup
    rw [if_pos ⟨(hdom i hin).1, hpg2 ▸ (hdom i hin).2⟩, htab1 i hin]
  have hfn : i < (bumpHit (bumpAccess s a) a).physical_frames := by
    rw [(bumpHit_fields _ _).2.1, (bumpAccess_fields _ _).2.1, e1]
    exact hin
  have hacc : access_memory s 1 va wr a =
      (hitUpdate (bumpHit (bumpAccess s a) a) i wr,
       .ok (true, .pageHit va i)) := by
    simp [access_memory, bumpAccess_processes, bumpAccess_page_size, hpr, hps0,
      hbound, hlk, hfn]
  show C7Loaded n ps np pg (access_memory s 1 va wr a).1
  rw [hacc]
  obtain ⟨hH1, hH2, hH3, hH4, hH5, hH6, hH7, hH8⟩ :=
    hitUpdate_fields (bumpHit (bumpAccess s a) a) i wr
  have hBf : (bumpHit (bumpAccess s a) a).frames = s.frames := by
    rw [(bumpHit_fields _ _).1, (bumpAccess_fields _ _).1]
  refine ⟨?_, ?_, ?_, ?_, ⟨pr, ?_, hpg2, htab1, htab2⟩, ?_⟩
  · rw [hH3, (bumpHit_fields _ _).2.1, (bumpAccess_fields _ _).2.1, e1]
  · show (hitUpdate (bumpHit (bumpAccess s a) a) i wr).page_size = ps
    have : (hitUpdate (bumpHit (bumpAccess s a) a) i wr).page_size =
        (bumpHit (bumpAccess s a) a).page_size := rfl
    rw [this, (bumpHit_fields _ _).2.2.2.2.2.2.2.2.2.1, bumpAccess_page_size, e2]
  · rw [hH4, (bumpHit_fields _ _).2.2.2.1, (bumpAccess_fields _ _).2.2.2.1, e3]
  · rw [hH7, (bumpHit_fields _ _).2.2.2.2.2.2.1, (bumpAccess_fields _ _).2.2.2.2.2.2.1,
      e4]
  · rw [hH2, (bumpHit_fields _ _).2.2.1, bumpAccess_processes]
    exact hpr
  · intro j hj
    refine ⟨?_, ?_⟩
    · rw [hH1 j, hBf]
      exact (hframes j hj).1
    · rw [hitUpdate_load, hBf]
      exact (hframes j hj).2

theorem c7_hits_preserved (n : Nat) (ps np : Int) (pg : Nat → Int)
    (hps : 0 < ps) (hdom : ∀ i, i < n → 0 ≤ pg i ∧ pg i < np) :
    ∀ (hits : List (Int × Bool × String)) (s : VMState), C7Loaded n ps np pg s →
    (∀ x ∈ hits, ∃ i, i < n ∧ Int.fdiv x.1 ps = pg i) →
    C7Loaded n ps np pg
      (runOps s (hits.map (fun x => Op.access 1 x.1 x.2.1 x.2.2))) := by
  intro hits
  induction hits with
  | nil =>
      intro s hL _
      exact hL
  | cons x t ih =>
      intro s hL hall
      have hx := hall x (List.mem_cons_self x t)
      have hstep := c7_hit_step n ps np pg hps hdom s hL x.1 x.2.1 x.2.2 hx
      have : runOps s ((x :: t).map (fun x => Op.access 1 x.1 x.2.1 x.2.2)) =
          runOps (applyOp s (.access 1 x.1 x.2.1 x.2.2))
            (t.map (fun x => Op.access 1 x.1 x.2.1 x.2.2)) := rfl
      rw [this]
      exact ih _ hstep (fun y hy => hall y (List.mem_cons_of_mem x hy))

/-- C7: after any `n = frameCount` first-time page loads (of arbitrary
distinct pages `pg 0, …, pg (n-1)` of one process) into free frames with no
evictions, followed by arbitrarily many intervening hits on resident pages
(any write flags, any algorithm names), one access to a distinct unmapped
page under FIFO evicts frame 0 — the occupied frame that received the
earliest load (its load timestamp is 1, strictly smaller than every other
occupied frame's). -/
theorem c7_fifo_victim_is_earliest_load (n : Nat) (ps np : Int)
    (pg : Nat → Int) (hn : 0 < n) (hps : 0 < ps)
    (hdom : ∀ i, i < n → 0 ≤ pg i ∧ pg i < np)
    (hinj : ∀ i j, i < n → j < n → pg i = pg j → i = j)
    (q : Int) (hq0 : 0 ≤ q) (hqnp : q < np) (hqnew : ∀ i, i < n → q ≠ pg i)
    (hits : List (Int × Bool × String))
    (hhits : ∀ x ∈ hits, ∃ i, i < n ∧ Int.fdiv x.1 ps = pg i)
    (S : VMState)
    (hS : S = runOps (c7State n ps np pg n)
      (hits.map (fun x => Op.access 1 x.1 x.2.1 x.2.2))) :
    (access_memory S 1 (q * ps) false "FIFO").2 =
      .ok (true, .faultReplaced 0 q 1) ∧
    (∀ j, j < n → ((S.frames j).page).isSome = true) ∧
    (S.frames 0).load_time = 1 ∧
    (∀ j, j < n → (S.frames 0).load_time ≤ (S.frames j).load_time) ∧
    (∀ j, 0 < j → j < n → (S.frames 0).load_time < (S.frames j).load_time) := by
  have hload : C7Loaded n ps np pg (c7State n ps np pg n) := by
    obtain ⟨e1, e2, _, e4, e5, e6, hex, hframes⟩ :=
      c7_load_char n ps np pg hps hdom hinj n (Nat.le_refl n)
    refine ⟨e1, e2, ?_, e6, hex, hframes⟩
    rw [e4, Nat.sub_self]
    rfl
  have hLS : C7Loaded n ps np pg S := by
    rw [hS]
    exact c7_hits_preserved n ps np pg hps hdom hits _ hload hhits
  obtain ⟨e1, e2, e3, e4, ⟨pr, hpr, hpg2, htab1, htab2⟩, hframes⟩ := hLS
  have hps0 : ¬ S.page_size = 0 := by
    rw [e2]
    omega
  have hfdiv : Int.fdiv (q * ps) S.page_size = q := by
    rw [e2]
    exact Int.mul_fdiv_cancel _ (by omega)
  have hbound : ¬ pr.pages ≤ Int.fdiv (q * ps) S.page_size := by
    rw [hfdiv, hpg2]
    exact Int.not_le.mpr hqnp
  have hlk : ptLookup pr (Int.fdiv (q * ps) S.page_size) = .ok none := by
    rw [hfdiv]
    unfold ptLookup
    rw [if_pos ⟨hq0, hpg2 ▸ hqnp⟩]
    rw [htab2 q hqnew]
  have hacc : access_memory S 1 (q * ps) false "FIFO" =
      handle_page_fault (bumpFault (bumpAccess S "FIFO") "FIFO") 1
        (Int.fdiv (q * ps) S.page_size) "FIFO" := by
    simp [access_memory, bumpAccess_processes, bumpAccess_page_size, hpr, hps0,
      hbound, hlk]
  set S3 := bumpFault (bumpAccess S "FIFO") "FIFO" with hS3
  have hp3 : S3.processes 1 = some pr := by
    rw [hS3, (bumpFault_fields _ _).2.2.1, bumpAccess_processes]
    exact hpr
  have hn3 : S3.physical_frames = n := by
    rw [hS3, (bumpFault_fields _ _).2.1, (bumpAccess_fields _ _).2.1, e1]
  have hf3 : S3.frames = S.frames := by
    rw [hS3, (bumpFault_fields _ _).1, (bumpAccess_fields _ _).1]
  have hfree3 : S3.free_frames = [] := by
    rw [hS3, (bumpFault_fields _ _).2.2.2.1, (bumpAccess_fields _ _).2.2.2.1, e3]
  have hq3 : S3.fifo_queue = 0 :: List.range' 1 (n - 1) := by
    rw [hS3, (bumpFault_fields _ _).2.2.2.2.2.2.1,
      (bumpAccess_fields _ _).2.2.2.2.2.2.1, e4]
    cases n with
    | zero => omega
    | succ m =>
        rw [List.range_eq_range']
        rfl
  have hocc0 : ((S3.frames 0).page).isSome = true := by
    rw [hf3]
    exact (hframes 0 hn).1
  have hemp : ¬ (occupiedIndices S3).isEmpty = true := by
    intro hemp
    have h0 : (0 : Nat) ∈ occupiedIndices S3 := by
      unfold occupiedIndices
      rw [List.mem_filter]
      exact ⟨List.mem_range.mpr (by rw [hn3]; exact hn), hocc0⟩
    rw [List.isEmpty_iff] at hemp
    rw [hemp] at h0
    cases h0
  have hsel : selectVictimPage S3 "FIFO" =
      ({ S3 with fifo_queue := List.range' 1 (n - 1) ++ [0] }, .ok 0) := by
    simp [selectVictimPage, hemp, fifoReplacement, hq3]
  have hvlt : 0 < (selectVictimPage S3 "FIFO").1.physical_frames := by
    rw [hsel]
    show 0 < S3.physical_frames
    rw [hn3]
    exact hn
  have hres : handle_page_fault S3 1 (Int.fdiv (q * ps) S.page_size) "FIFO" =
      (replaceVictim (selectVictimPage S3 "FIFO").1 1
        (Int.fdiv (q * ps) S.page_size)
        { page_number := Int.fdiv (q * ps) S.page_size, process_id := 1,
          data := s!"Data_{(1 : Int)}_{Int.fdiv (q * ps) S.page_size}" } 0,
       .ok (true, .faultReplaced 0 (Int.fdiv (q * ps) S.page_size) 1)) := by
    simp [handle_page_fault, hp3, hfree3, hsel, hn3, hn]
  refine ⟨?_, fun j hj => (hframes j hj).1, (hframes 0 hn).2, ?_, ?_⟩
  · rw [hacc, hres, hfdiv]
  · intro j hj
    rw [(hframes 0 hn).2, (hframes j hj).2]
    omega
  · intro j hj0 hjn
    rw [(hframes 0 hn).2, (hframes j hjn).2]
    omega

theorem c7_fifo_victim_is_earliest_load_witness :
    (access_memory (runOps (c7State 2 16 3 (fun i => (i : Int)) 2)
      ([((0 : Int), false, "LRU")].map (fun x => Op.access 1 x.1 x.2.1 x.2.2)))
      1 (2 * 16) false "FIFO").2 = .ok (true, .faultReplaced 0 2 1) ∧
    (∀ j, j < 2 → (((runOps (c7State 2 16 3 (fun i => (i : Int)) 2)
      ([((0 : Int), false, "LRU")].map (fun x => Op.access 1 x.1 x.2.1 x.2.2))).frames
        j).page).isSome = true) ∧
    ((runOps (c7State 2 16 3 (fun i => (i : Int)) 2)
      ([((0 : Int), false, "LRU")].map (fun x => Op.access 1 x.1 x.2.1 x.2.2))).frames
        0).load_time = 1 ∧
    (∀ j, j < 2 → ((runOps (c7State 2 16 3 (fun i => (i : Int)) 2)
      ([((0 : Int), false, "LRU")].map (fun x => Op.access 1 x.1 x.2.1 x.2.2))).frames
        0).load_time ≤ ((runOps (c7State 2 16 3 (fun i => (i : Int)) 2)
      ([((0 : Int), false, "LRU")].map (fun x => Op.access 1 x.1 x.2.1 x.2.2))).frames
        j).load_time) ∧
    (∀ j, 0 < j → j < 2 → ((runOps (c7State 2 16 3 (fun i => (i : Int)) 2)
      ([((0 : Int), false, "LRU")].map (fun x => Op.access 1 x.1 x.2.1 x.2.2))).frames
        0).load_time < ((runOps (c7State 2 16 3 (fun i => (i : Int)) 2)
      ([((0 : Int), false, "LRU")].map (fun x => Op.access 1 x.1 x.2.1 x.2.2))).frames
        j).load_time) :=
  c7_fifo_victim_is_earliest_load 2 16 3 (fun i => (i : Int)) (by decide) (by decide)
    (fun i hi => ⟨Int.ofNat_nonneg i, by show (i : Int) < 3; omega⟩)
    (fun i j _ _ h => by
      have h2 : (i : Int) = (j : Int) := h
      omega)
    2 (by decide) (by decide) (fun i hi => by show (2 : Int) ≠ (i : Int); omega)
    [((0 : Int), false, "LRU")]
    (by
      intro x hx
      rw [List.mem_singleton] at hx
      subst hx
      exact ⟨0, by decide, by decide⟩)
    _ rfl
